import Mathlib

/-!
# Verification of the openCOSMO-RS segment-type registry, canonical ordering and
# interaction-matrix builder

Shallow embedding of `types.hpp` (struct `segmentTypeCollection`, its `add` and
`sort` members) and `interaction_matrix.hpp` (`calculateInteractionMatrix`).

Conventions of the embedding:
* C++ `float`/`double` values are modelled as exact rationals (`ℚ`); the claims
  under study are algebraic identities about the computed expressions.
* C++ `std::vector` members are Lean `List`s; reads use `List.getD` with the
  same out-of-range behaviour made total.
* The fixed-size `int[7]` bound arrays are total maps `Fin 7 → ℤ`; the raw
  C-array accesses `arr[idx] = v` with an `int` index are embedded as a
  bounds-checked write (`writeGroupArr`) that fails (`none`) exactly when the
  C++ access would be out of bounds, so safety claims become reachability of
  the `none` branch.
* Functions that can throw (`calculateInteractionMatrix`) return
  `Except String`; functions whose raw array writes can go out of bounds
  (`add`, `sort`) return `Option`.
* The interaction matrix (Eigen, indexed by `int`) is a total map
  `ℤ → ℤ → ℚ`; writes are pointwise functional updates.
-/

namespace OpenCosmoRS

/-! ## Data model: `segmentTypeCollection` (types.hpp, lines 133–291) -/

/-- Embedding of the C++ `segmentTypeCollection` struct.  The private row
template `SegmentTypeAreasRowTemplate` and the six parallel attribute vectors
are carried verbatim; the three `int[7]` group-bound arrays are total maps. -/
structure segmentTypeCollection where
  SegmentTypeAreasRowTemplate : List ℚ
  SegmentTypeAreas : List (List ℚ)
  SegmentTypeGroup : List ℕ
  SegmentTypeSigma : List ℚ
  SegmentTypeSigmaCorr : List ℚ
  SegmentTypeHBtype : List ℕ
  SegmentTypeAtomicNumber : List ℕ
  lowerBoundIndexForGroup : Fin 7 → ℤ
  upperBoundIndexForGroup : Fin 7 → ℤ
  numberOfSegmentsForGroup : Fin 7 → ℤ

namespace segmentTypeCollection

/-- `size()` returns `SegmentTypeHBtype.size()` (types.hpp line 225). -/
def size (c : segmentTypeCollection) : ℕ := c.SegmentTypeHBtype.length

/-- `segmentTypeCollection(int numberOfMolecules)` (types.hpp line 177):
all vectors empty, the row template holds `numberOfMolecules` zeros, the
statically initialized bound arrays are all zero. -/
def mkNew (numberOfMolecules : ℕ) : segmentTypeCollection where
  SegmentTypeAreasRowTemplate := List.replicate numberOfMolecules 0
  SegmentTypeAreas := []
  SegmentTypeGroup := []
  SegmentTypeSigma := []
  SegmentTypeSigmaCorr := []
  SegmentTypeHBtype := []
  SegmentTypeAtomicNumber := []
  lowerBoundIndexForGroup := fun _ => 0
  upperBoundIndexForGroup := fun _ => 0
  numberOfSegmentsForGroup := fun _ => 0

/-- The C++ default constructor (types.hpp line 173) reads
`segmentTypeCollection() { segmentTypeCollection(1); }`: the body builds a
*discarded temporary* instead of delegating, so the members of the object
being constructed keep their default initialization — in particular
`SegmentTypeAreasRowTemplate` stays empty. -/
def mkDefault : segmentTypeCollection := mkNew 0

/-! Accessors for the parallel attribute vectors at a `ℕ` index, with the
`getD` totalization of out-of-range reads. -/

def grOf (c : segmentTypeCollection) (i : ℕ) : ℕ := c.SegmentTypeGroup.getD i 0
def sgOf (c : segmentTypeCollection) (i : ℕ) : ℚ := c.SegmentTypeSigma.getD i 0
def scOf (c : segmentTypeCollection) (i : ℕ) : ℚ := c.SegmentTypeSigmaCorr.getD i 0
def hbOf (c : segmentTypeCollection) (i : ℕ) : ℕ := c.SegmentTypeHBtype.getD i 0
def anOf (c : segmentTypeCollection) (i : ℕ) : ℕ := c.SegmentTypeAtomicNumber.getD i 0

/-- The strict comparator of `get_permutation_vector` (types.hpp lines
142–162), flattening the nested monoatomic-ion `if` into a conjunction:
group, then (for groups 3/5) atomic number, then sigma, sigmaCorr, hbType,
atomic number, and finally the original index as tie-break. -/
def cmpLt (c : segmentTypeCollection) (i j : ℕ) : Prop :=
  if c.grOf i ≠ c.grOf j then c.grOf i < c.grOf j
  else if (c.grOf i = 3 ∨ c.grOf i = 5) ∧ c.anOf i ≠ c.anOf j then c.anOf i < c.anOf j
  else if c.sgOf i ≠ c.sgOf j then c.sgOf i < c.sgOf j
  else if c.scOf i ≠ c.scOf j then c.scOf i < c.scOf j
  else if c.hbOf i ≠ c.hbOf j then c.hbOf i < c.hbOf j
  else if c.anOf i ≠ c.anOf j then c.anOf i < c.anOf j
  else i < j

instance (c : segmentTypeCollection) (i j : ℕ) : Decidable (cmpLt c i j) := by
  unfold cmpLt; infer_instance

/-- `get_permutation_vector` (types.hpp lines 138–164): sort the index list
`0, …, SegmentTypeGroup.size() − 1` by the strict comparator `cmpLt`.  The
comparator is a strict *total* order (final `i < j` tie-break), so the result
of `std::sort` is the unique sorted arrangement; we realize it with
`List.insertionSort` under the reflexive closure `¬ cmpLt c j i`. -/
def get_permutation_vector (c : segmentTypeCollection) : List ℕ :=
  List.insertionSort (fun i j => ¬ cmpLt c j i) (List.range c.SegmentTypeGroup.length)

/-- `apply_vector_permutation_in_place` (types.hpp lines 29–47) performs the
in-place cycle-following application of permutation `p`; its net effect is the
gather `new[i] = old[p[i]]` (spec §9 notes the cycle-following is an
optimization of exactly this gather). -/
def gather {α : Type} (d : α) (l : List α) (p : List ℕ) : List α :=
  p.map (fun k => l.getD k d)

/-- The six `apply_vector_permutation_in_place` calls of `sort()`
(types.hpp lines 264–269). -/
def applyPermutations (c : segmentTypeCollection) (p : List ℕ) :
    segmentTypeCollection :=
  { c with
    SegmentTypeGroup := gather 0 c.SegmentTypeGroup p
    SegmentTypeSigma := gather 0 c.SegmentTypeSigma p
    SegmentTypeSigmaCorr := gather 0 c.SegmentTypeSigmaCorr p
    SegmentTypeHBtype := gather 0 c.SegmentTypeHBtype p
    SegmentTypeAtomicNumber := gather 0 c.SegmentTypeAtomicNumber p
    SegmentTypeAreas := gather [] c.SegmentTypeAreas p }

end segmentTypeCollection

/-- Bounds-checked write to one of the `int[7]` group arrays at a C++ `int`
index: fails exactly when the raw array access would be out of bounds. -/
def writeGroupArr (f : Fin 7 → ℤ) (idx : ℤ) (v : ℤ) : Option (Fin 7 → ℤ) :=
  if h : 0 ≤ idx ∧ idx < 7 then
    some (Function.update f ⟨idx.toNat, by omega⟩ v)
  else none

/-- Loop state of the group-transition scan of `sort()` (types.hpp lines
271–284): `temporaryindex` and the two bound arrays being written. -/
structure ScanState where
  temp : ℤ
  lower : Fin 7 → ℤ
  upper : Fin 7 → ℤ

/-- One iteration of the scan (types.hpp lines 273–284): on a group
transition, close the previous group's upper bound (unless `temporaryindex`
is still `-1`) and open the new group's lower bound. -/
def scanStep (gs : List ℕ) (st : ScanState) (i : ℕ) : Option ScanState :=
  let gi : ℤ := (gs.getD i 0 : ℕ)
  if st.temp = gi then some st
  else
    match (if st.temp = -1 then some st.upper else writeGroupArr st.upper st.temp i) with
    | none => none
    | some up =>
      match writeGroupArr st.lower gi i with
      | none => none
      | some lo => some ⟨gi, lo, up⟩

namespace segmentTypeCollection

/-- `sort()` (types.hpp lines 261–290): apply the permutation to all six
vectors, run the group-transition scan starting from
`temporaryindex = -1`, perform the final write
`upperBoundIndexForGroup[temporaryindex] = i` with `i = size()`, and recompute
`numberOfSegmentsForGroup[g] = max(upper[g] − lower[g], 0)`. -/
def sort (c : segmentTypeCollection) : Option segmentTypeCollection :=
  match (List.range (applyPermutations c (get_permutation_vector c)).size).foldlM
      (scanStep (applyPermutations c (get_permutation_vector c)).SegmentTypeGroup)
      (ScanState.mk (-1) c.lowerBoundIndexForGroup c.upperBoundIndexForGroup) with
  | none => none
  | some st =>
    match writeGroupArr st.upper st.temp
        (((applyPermutations c (get_permutation_vector c)).size : ℕ) : ℤ) with
    | none => none
    | some up =>
      some { applyPermutations c (get_permutation_vector c) with
        lowerBoundIndexForGroup := st.lower
        upperBoundIndexForGroup := up
        numberOfSegmentsForGroup := fun g => max (up g - st.lower g) 0 }

/-- The exact-equality key match of the linear search in `add` (types.hpp
lines 236–245). -/
def keyMatch (c : segmentTypeCollection) (group : ℕ) (Sigma SigmaCorr : ℚ)
    (HBtype atomicNumber : ℕ) (i : ℕ) : Prop :=
  c.grOf i = group ∧ c.hbOf i = HBtype ∧ c.sgOf i = Sigma ∧
    c.scOf i = SigmaCorr ∧ c.anOf i = atomicNumber

instance (c : segmentTypeCollection) (g : ℕ) (s sc : ℚ) (hb an i : ℕ) :
    Decidable (keyMatch c g s sc hb an i) := by
  unfold keyMatch; infer_instance

/-- Number of stored segment types matching a given key. -/
def keyCount (c : segmentTypeCollection) (group : ℕ) (Sigma SigmaCorr : ℚ)
    (HBtype atomicNumber : ℕ) : ℕ :=
  ((List.range c.size).filter
    (fun i => decide (keyMatch c group Sigma SigmaCorr HBtype atomicNumber i))).length

/-- The append branch of `add` (types.hpp lines 247–256): push the key fields
and a fresh copy of the row template. -/
def appendKey (c : segmentTypeCollection) (group : ℕ) (Sigma SigmaCorr : ℚ)
    (HBtype atomicNumber : ℕ) : segmentTypeCollection :=
  { c with
    SegmentTypeGroup := c.SegmentTypeGroup ++ [group]
    SegmentTypeHBtype := c.SegmentTypeHBtype ++ [HBtype]
    SegmentTypeSigma := c.SegmentTypeSigma ++ [Sigma]
    SegmentTypeSigmaCorr := c.SegmentTypeSigmaCorr ++ [SigmaCorr]
    SegmentTypeAtomicNumber := c.SegmentTypeAtomicNumber ++ [atomicNumber]
    SegmentTypeAreas := c.SegmentTypeAreas ++ [c.SegmentTypeAreasRowTemplate] }

/-- The final write of `add` (types.hpp line 258):
`SegmentTypeAreas[index][ind_molecule] += Area`, embedded as a bounds-checked
write on the row (fails exactly when the C++ write would be out of bounds). -/
def addWrite (c : segmentTypeCollection) (index ind_molecule : ℕ) (Area : ℚ) :
    Option segmentTypeCollection :=
  if ind_molecule < (c.SegmentTypeAreas.getD index []).length then
    some { c with SegmentTypeAreas :=
      (c.SegmentTypeAreas.set index
        ((c.SegmentTypeAreas.getD index []).set ind_molecule
          ((c.SegmentTypeAreas.getD index []).getD ind_molecule 0 + Area))) }
  else none

/-- `add` (types.hpp lines 229–259): no-op for `Area == 0`; otherwise a linear
search for an exactly matching key; on miss, append the key fields and a fresh
copy of the row template; finally the area write at the found or appended
index. -/
def add (c : segmentTypeCollection) (ind_molecule group : ℕ) (Sigma SigmaCorr : ℚ)
    (HBtype atomicNumber : ℕ) (Area : ℚ) : Option segmentTypeCollection :=
  if Area = 0 then some c
  else
    match (List.range c.size).find?
        (fun i => decide (keyMatch c group Sigma SigmaCorr HBtype atomicNumber i)) with
    | some i => addWrite c i ind_molecule Area
    | none =>
      addWrite (appendKey c group Sigma SigmaCorr HBtype atomicNumber)
        c.size ind_molecule Area

end segmentTypeCollection

/-! ## Data model: `parameters` (types.hpp, lines 49–131)

Only the fields read by `calculateInteractionMatrix` are carried. -/

structure parameters where
  sw_misfit : ℤ
  sw_useSegmentReferenceStateForInteractionMatrix : ℤ
  sw_calculateContactStatisticsAndAdditionalProperties : ℤ
  numberOfPartialInteractionMatrices : ℕ
  Aeff : ℚ
  alpha : ℚ
  CHB : ℚ
  CHBT : ℚ
  SigmaHB : ℚ
  fCorr : ℚ

/-! ## Interaction matrix builder (interaction_matrix.hpp) -/

/-- An Eigen matrix indexed by C++ `int`, as a total map. -/
def Mat : Type := ℤ → ℤ → ℚ

instance : Inhabited Mat := ⟨fun _ _ => 0⟩

/-- Pointwise write `A(r, c) = v`. -/
def mwrite (A : Mat) (r c : ℤ) (v : ℚ) : Mat :=
  fun r' c' => if r' = r ∧ c' = c then v else A r' c'

/-- Attribute reads at a C++ `int` loop index. -/
def sigAt (c : segmentTypeCollection) (i : ℤ) : ℚ := c.sgOf i.toNat
def sigCorrAt (c : segmentTypeCollection) (i : ℤ) : ℚ := c.scOf i.toNat
def hbAt (c : segmentTypeCollection) (i : ℤ) : ℕ := c.hbOf i.toNat

/-- `CHB_T` (interaction_matrix.hpp lines 37–39): zero unless the temperature
factor `buffdb1 = 1 − CHBT + CHBT·(298.15/T)` is positive. -/
def CHB_T_of (param : parameters) (temperature : ℚ) : ℚ :=
  let buffdb1 : ℚ := 1 - param.CHBT + param.CHBT * (298.15 / temperature)
  if buffdb1 > 0 then param.CHB * 36700000.0 * buffdb1 else 0

/-- `misfit_prefactor = Aeff * alpha * 5950000.0 * 0.5` (line 34). -/
def misfit_prefactor (param : parameters) : ℚ :=
  param.Aeff * param.alpha * 5950000.0 * 0.5

/-- `hb_prefactor = Aeff * CHB_T` (line 41). -/
def hb_prefactor (param : parameters) (temperature : ℚ) : ℚ :=
  param.Aeff * CHB_T_of param temperature

/-- The misfit value `val` computed for a pair before the hydrogen-bond
branches (interaction_matrix.hpp lines 51–69): with `sw_misfit > 0` the
sigma-correlation corrected form, otherwise the plain quadratic form. -/
def misfitVal (param : parameters) (sigmai sigmaCorri sigmaj sigmaCorrj : ℚ) : ℚ :=
  if param.sw_misfit > 0 then
    misfit_prefactor param * (sigmai + sigmaj) *
      ((sigmai + sigmaj) +
        param.fCorr * ((sigmaCorri - 0.816 * sigmai) + (sigmaCorrj - 0.816 * sigmaj)))
  else
    misfit_prefactor param * (sigmai + sigmaj) * (sigmai + sigmaj)

/-- The full per-pair value written to `A_int(j, i)` in the neutral block
(interaction_matrix.hpp lines 56–94): the misfit value plus, depending on the
sign gates and the donor/acceptor classes, a hydrogen-bond contribution or a
thrown `std::runtime_error`. -/
def pairVal (param : parameters) (temperature : ℚ)
    (sigmai sigmaCorri sigmaj sigmaCorrj : ℚ) (hbi hbj : ℕ) : Except String ℚ :=
  if sigmai < -param.SigmaHB ∧ sigmaj > param.SigmaHB then
    if hbi = 1 ∧ hbj = 2 then
      Except.ok (misfitVal param sigmai sigmaCorri sigmaj sigmaCorrj +
        hb_prefactor param temperature * (sigmaj - param.SigmaHB) * (sigmai + param.SigmaHB))
    else if hbi = 2 ∧ hbj = 1 then
      Except.error "This should not happen. Wrong assumption calculating interaction matrix. 1"
    else Except.ok (misfitVal param sigmai sigmaCorri sigmaj sigmaCorrj)
  else if sigmaj < -param.SigmaHB ∧ sigmai > param.SigmaHB then
    if hbi = 2 ∧ hbj = 1 then
      Except.ok (misfitVal param sigmai sigmaCorri sigmaj sigmaCorrj +
        hb_prefactor param temperature * (sigmai - param.SigmaHB) * (sigmaj + param.SigmaHB))
    else if hbi = 1 ∧ hbj = 2 then
      Except.error "This should not happen. Wrong assumption calculating interaction matrix. 2"
    else Except.ok (misfitVal param sigmai sigmaCorri sigmaj sigmaCorrj)
  else Except.ok (misfitVal param sigmai sigmaCorri sigmaj sigmaCorrj)

/-- `pairVal` evaluated at the loop indices `(i, j)` of a collection. -/
def pairValAt (segments : segmentTypeCollection) (param : parameters)
    (temperature : ℚ) (i j : ℤ) : Except String ℚ :=
  pairVal param temperature (sigAt segments i) (sigCorrAt segments i)
    (sigAt segments j) (sigCorrAt segments j) (hbAt segments i) (hbAt segments j)

/-- Whether, at a pair `(i, j)` of the neutral loop, one of the four
hydrogen-bond branches (add or throw) fires; mirrors the `if`/`else if`
structure of lines 72–91. -/
def hbBranchFires (sigmaHB sigmai sigmaj : ℚ) (hbi hbj : ℕ) : Prop :=
  if sigmai < -sigmaHB ∧ sigmaj > sigmaHB then
    (hbi = 1 ∧ hbj = 2) ∨ (hbi = 2 ∧ hbj = 1)
  else if sigmaj < -sigmaHB ∧ sigmai > sigmaHB then
    (hbi = 2 ∧ hbj = 1) ∨ (hbi = 1 ∧ hbj = 2)
  else False

/-- The integers `lo, lo+1, …, hi−1` in order: the iteration sequence of a
C++ loop `for (int k = lo; k < hi; k++)`. -/
def intRange (lo hi : ℤ) : List ℤ :=
  (List.range (hi - lo).toNat).map (fun (k : ℕ) => lo + (k : ℤ))

/-- `UpperBoundIndexForNeutralComponents` (interaction_matrix.hpp lines
44–45). -/
def upperBoundNeutral (segments : segmentTypeCollection) : ℤ :=
  max (max (segments.upperBoundIndexForGroup 0) (segments.upperBoundIndexForGroup 1))
    (segments.upperBoundIndexForGroup 2)

/-- The iteration sequence of the nested neutral-block loops (lines 47 and
56): `(i, j)` with `lb ≤ i`, `i ≤ j < U`, in lexicographic order. -/
def neutralPairs (lb U : ℤ) : List (ℤ × ℤ) :=
  (intRange lb U).flatMap (fun i => (intRange i U).map (fun j => (i, j)))

/-- The neutral–neutral term-evaluation pass (interaction_matrix.hpp lines
44–96): for each pair, compute `pairVal` (propagating the thrown exception)
and write it to `A_int(j, i)`. -/
def neutralPass (segments : segmentTypeCollection) (A_int : Mat)
    (param : parameters) (temperature : ℚ) : Except String Mat :=
  (neutralPairs (segments.lowerBoundIndexForGroup 0) (upperBoundNeutral segments)).foldlM
    (fun A p => (pairValAt segments param temperature p.1 p.2).map (mwrite A p.2 p.1)) A_int

/-- The lower-triangle pairs `(i, j)` with `0 ≤ i < j < n` in the iteration
order of the renormalization loops (lines 101–106). -/
def lowerPairs (n : ℤ) : List (ℤ × ℤ) :=
  (intRange 0 n).flatMap (fun i => (intRange (i + 1) n).map (fun j => (i, j)))

/-- Pass 1 of the reference-state renormalization (lines 101–106):
`A(j,i) = A(j,i) − 0.5·(A(i,i) + A(j,j))` over all `j > i`, executed as the
C++ sequence of in-place updates. -/
def refPass1 (n : ℤ) (A : Mat) : Mat :=
  (lowerPairs n).foldl
    (fun B p => mwrite B p.2 p.1 (B p.2 p.1 - 0.5 * (B p.1 p.1 + B p.2 p.2))) A

/-- Pass 2 of the renormalization (lines 109–111): zero the diagonal. -/
def zeroDiag (n : ℤ) (A : Mat) : Mat :=
  (intRange 0 n).foldl (fun B i => mwrite B i i 0) A

/-- The two-pass renormalization applied to one matrix. -/
def renormalize (n : ℤ) (A : Mat) : Mat := zeroDiag n (refPass1 n A)

/-- `calculateInteractionMatrix` (interaction_matrix.hpp lines 14–130).
The per-`h` loops over the partial matrices are independent, so they are
embedded as a map over the vector restricted to the first
`numberOfPartialInteractionMatrices` entries. -/
def calculateInteractionMatrix (segments : segmentTypeCollection) (A_int : Mat)
    (partialInteractionMatrices : List Mat) (param : parameters)
    (temperature : ℚ) : Except String (Mat × List Mat) :=
  let numberOfSegments : ℤ := (segments.size : ℤ)
  match neutralPass segments A_int param temperature with
  | Except.error e => Except.error e
  | Except.ok A =>
    if param.sw_useSegmentReferenceStateForInteractionMatrix = 1 then
      let A2 := renormalize numberOfSegments A
      let ps :=
        if param.sw_calculateContactStatisticsAndAdditionalProperties > 0 then
          partialInteractionMatrices.mapIdx (fun h M =>
            if h < param.numberOfPartialInteractionMatrices then
              renormalize numberOfSegments M
            else M)
        else partialInteractionMatrices
      Except.ok (A2, ps)
    else Except.ok (A, partialInteractionMatrices)

/-- Well-formedness of the parallel arrays: every attribute vector has the
same length as the collection (`size()` is `SegmentTypeHBtype.size()`); holds
for every collection built through `add`. -/
def segmentTypeCollection.sizesOk (c : segmentTypeCollection) : Prop :=
  c.SegmentTypeGroup.length = c.size ∧ c.SegmentTypeSigma.length = c.size ∧
    c.SegmentTypeSigmaCorr.length = c.size ∧
    c.SegmentTypeAtomicNumber.length = c.size ∧ c.SegmentTypeAreas.length = c.size

instance : Inhabited segmentTypeCollection := ⟨segmentTypeCollection.mkNew 0⟩

/-- Extract the payload of a successful `Except` computation. -/
def exOk {α : Type} [Inhabited α] (x : Except String α) : α :=
  match x with
  | Except.ok a => a
  | Except.error _ => default

/-- Extract the payload of a successful `Option` computation. -/
def exSome {α : Type} [Inhabited α] (x : Option α) : α := x.getD default

/-! ### Proof devices for the comparator: lexicographic sort keys -/

/-- The tier-2 key component: atomic number for monoatomic-ion groups, `0`
otherwise (the comparator consults the atomic number early only for groups 3
and 5). -/
def monoKey (c : segmentTypeCollection) (i : ℕ) : ℕ :=
  if c.grOf i = 3 ∨ c.grOf i = 5 then c.anOf i else 0

/-- The value part of the sort key (no index tie-break). -/
def valKey (c : segmentTypeCollection) (i : ℕ) : ℕ ×ₗ ℕ ×ₗ ℚ ×ₗ ℚ ×ₗ ℕ ×ₗ ℕ :=
  toLex (c.grOf i, toLex (monoKey c i, toLex (c.sgOf i, toLex (c.scOf i,
    toLex (c.hbOf i, c.anOf i)))))

/-- The full sort key, with the original index as final tie-break; the
comparator `cmpLt` is exactly the strict lexicographic order on these keys. -/
def sortKey (c : segmentTypeCollection) (i : ℕ) :
    ℕ ×ₗ ℕ ×ₗ ℚ ×ₗ ℚ ×ₗ ℕ ×ₗ ℕ ×ₗ ℕ :=
  toLex (c.grOf i, toLex (monoKey c i, toLex (c.sgOf i, toLex (c.scOf i,
    toLex (c.hbOf i, toLex (c.anOf i, i))))))

/-- Last (index) component of a sort key. -/
def sortKeyIdx (k : ℕ ×ₗ ℕ ×ₗ ℚ ×ₗ ℚ ×ₗ ℕ ×ₗ ℕ ×ₗ ℕ) : ℕ :=
  (ofLex ((ofLex ((ofLex ((ofLex ((ofLex ((ofLex k).2)).2)).2)).2)).2)).2

/-! ## Concrete instances used by witnesses and counterexamples -/

/-- Parameters for the C5 scenario: `Aeff = 1 > 0`, `CHB = 1/3.67e7 > 0`,
`CHBT = 0` so that `CHB_T = 1 > 0` at `T = 298.15`; `alpha = 0` makes the
misfit part vanish, isolating the hydrogen-bond term. -/
def c5param : parameters where
  sw_misfit := 0
  sw_useSegmentReferenceStateForInteractionMatrix := 0
  sw_calculateContactStatisticsAndAdditionalProperties := 0
  numberOfPartialInteractionMatrices := 0
  Aeff := 1
  alpha := 0
  CHB := 1 / 36700000
  CHBT := 0
  SigmaHB := 0.0084
  fCorr := 0

/-- A freshly constructed, nonempty collection (one segment type of group 0,
zero-initialized bound arrays), exhibiting the stale bounds of empty groups
after `sort()`. -/
def c6ex : segmentTypeCollection where
  SegmentTypeAreasRowTemplate := [0]
  SegmentTypeAreas := [[1]]
  SegmentTypeGroup := [0]
  SegmentTypeSigma := [0]
  SegmentTypeSigmaCorr := [0]
  SegmentTypeHBtype := [0]
  SegmentTypeAtomicNumber := [0]
  lowerBoundIndexForGroup := fun _ => 0
  upperBoundIndexForGroup := fun _ => 0
  numberOfSegmentsForGroup := fun _ => 0


/-- Zero matrix used as the initial interaction matrix in witnesses. -/
def wA0 : Mat := fun _ _ => 0

/-- A two-segment neutral collection (both of group 0, zero sigmas) with
`upperBoundIndexForGroup[0] = 2`: a minimal well-formed input for the
neutral-neutral loop of `calculateInteractionMatrix`. -/
def wseg : segmentTypeCollection where
  SegmentTypeAreasRowTemplate := [0]
  SegmentTypeAreas := [[0], [0]]
  SegmentTypeGroup := [0, 0]
  SegmentTypeSigma := [0, 0]
  SegmentTypeSigmaCorr := [0, 0]
  SegmentTypeHBtype := [0, 0]
  SegmentTypeAtomicNumber := [1, 6]
  lowerBoundIndexForGroup := fun _ => 0
  upperBoundIndexForGroup := fun g => if g = 0 then 2 else 0
  numberOfSegmentsForGroup := fun g => if g = 0 then 2 else 0

/-- Parameters with every switch off and `SigmaHB = 0`. -/
def wparam0 : parameters where
  sw_misfit := 0
  sw_useSegmentReferenceStateForInteractionMatrix := 0
  sw_calculateContactStatisticsAndAdditionalProperties := 0
  numberOfPartialInteractionMatrices := 0
  Aeff := 1
  alpha := 1
  CHB := 0
  CHBT := 0
  SigmaHB := 0
  fCorr := 0

/-- `wparam0` with the segment-reference-state switch turned on. -/
def wparam1 : parameters where
  sw_misfit := 0
  sw_useSegmentReferenceStateForInteractionMatrix := 1
  sw_calculateContactStatisticsAndAdditionalProperties := 0
  numberOfPartialInteractionMatrices := 0
  Aeff := 1
  alpha := 1
  CHB := 0
  CHBT := 0
  SigmaHB := 0
  fCorr := 0

/-- Parameters with integer-valued fields and `SigmaHB = 1`. -/
def wparam3 : parameters where
  sw_misfit := 0
  sw_useSegmentReferenceStateForInteractionMatrix := 0
  sw_calculateContactStatisticsAndAdditionalProperties := 0
  numberOfPartialInteractionMatrices := 0
  Aeff := 1
  alpha := 1
  CHB := 2
  CHBT := 0
  SigmaHB := 1
  fCorr := 0

/-- A one-molecule collection and the results of adding the same segment-type
key twice with areas `1` and `2`. -/
def w8c : segmentTypeCollection := segmentTypeCollection.mkNew 1

def w8c1 : segmentTypeCollection := exSome (w8c.add 0 0 0 0 0 0 1)

def w8c2 : segmentTypeCollection := exSome (w8c1.add 0 0 0 0 0 0 2)

/-! ## Theorems -/

lemma mem_intRange {lo hi x : ℤ} : x ∈ intRange lo hi ↔ lo ≤ x ∧ x < hi := by
  unfold intRange
  simp only [List.mem_map, List.mem_range]
  constructor
  · rintro ⟨k, hk, rfl⟩; omega
  · intro h
    refine ⟨(x - lo).toNat, by omega, by omega⟩

lemma nodup_intRange (lo hi : ℤ) : (intRange lo hi).Nodup := by
  unfold intRange
  refine List.Nodup.map ?_ (List.nodup_range _)
  intro a b h
  have h2 : lo + (a : ℤ) = lo + (b : ℤ) := h
  omega

lemma mem_lowerPairs {n : ℤ} {p : ℤ × ℤ} :
    p ∈ lowerPairs n ↔ 0 ≤ p.1 ∧ p.1 < p.2 ∧ p.2 < n := by
  unfold lowerPairs
  simp only [List.mem_flatMap, List.mem_map]
  constructor
  · rintro ⟨i, hi, j, hj, rfl⟩
    rw [mem_intRange] at hi hj
    exact ⟨hi.1, by omega, hj.2⟩
  · rintro ⟨h1, h2, h3⟩
    exact ⟨p.1, mem_intRange.mpr ⟨h1, by omega⟩,
      p.2, mem_intRange.mpr ⟨by omega, h3⟩, rfl⟩

lemma nodup_lowerPairs (n : ℤ) : (lowerPairs n).Nodup := by
  unfold lowerPairs
  rw [List.nodup_flatMap]
  constructor
  · intro i _
    refine List.Nodup.map ?_ (nodup_intRange _ _)
    intro a b h
    exact (Prod.mk.injEq _ _ _ _ ▸ h).2
  · refine List.Pairwise.imp ?_ (nodup_intRange 0 n)
    intro i j hij
    intro x hx1 hx2
    exfalso
    simp only [Function.onFun, List.mem_map] at hx1 hx2
    obtain ⟨a, _, ha⟩ := hx1
    obtain ⟨b, _, hb⟩ := hx2
    apply hij
    have h1 : x.1 = i := by rw [← ha]
    have h2 : x.1 = j := by rw [← hb]
    rw [← h1, ← h2]

/-- The value of `mwrite` at a point. -/
lemma mwrite_apply (A : Mat) (r c : ℤ) (v : ℚ) (r' c' : ℤ) :
    mwrite A r c v r' c' = if r' = r ∧ c' = c then v else A r' c' := rfl

/-- Pass-1 fold characterization: over a duplicate-free list of strictly
lower-triangular index pairs, the sequential in-place updates read only
diagonal entries, which they never modify; hence each written entry obtains
exactly the shift by the *original* diagonal values. -/
lemma foldl_refStep_char (L : List (ℤ × ℤ)) (A : Mat)
    (hlt : ∀ p ∈ L, p.1 < p.2) (hnd : L.Nodup) :
    (∀ d, (L.foldl (fun B p => mwrite B p.2 p.1 (B p.2 p.1 - 0.5 * (B p.1 p.1 + B p.2 p.2))) A) d d = A d d) ∧
    (∀ r c, (L.foldl (fun B p => mwrite B p.2 p.1 (B p.2 p.1 - 0.5 * (B p.1 p.1 + B p.2 p.2))) A) r c =
      if (c, r) ∈ L then A r c - 0.5 * (A c c + A r r) else A r c) := by
  induction L generalizing A with
  | nil => simp
  | cons p L ih =>
    have hpl : p.1 < p.2 := hlt p (List.mem_cons_self _ _)
    have hlt' : ∀ q ∈ L, q.1 < q.2 := fun q hq => hlt q (List.mem_cons_of_mem _ hq)
    have hnd' : L.Nodup := hnd.of_cons
    have hpnot : p ∉ L := (List.nodup_cons.mp hnd).1
    set A' : Mat := mwrite A p.2 p.1 (A p.2 p.1 - 0.5 * (A p.1 p.1 + A p.2 p.2)) with hA'
    have hdiag : ∀ d, A' d d = A d d := by
      intro d
      rw [hA', mwrite_apply, if_neg]
      rintro ⟨h1, h2⟩
      omega
    obtain ⟨ihd, ihe⟩ := ih A' hlt' hnd'
    constructor
    · intro d
      simp only [List.foldl_cons]
      rw [ihd d, hdiag d]
    · intro r c
      simp only [List.foldl_cons]
      rw [ihe r c]
      by_cases hmem : (c, r) ∈ L
      · rw [if_pos hmem, if_pos (List.mem_cons_of_mem _ hmem), hdiag, hdiag]
        have hne : A' r c = A r c := by
          rw [hA', mwrite_apply, if_neg]
          rintro ⟨rfl, rfl⟩
          exact hpnot hmem
        rw [hne]
      · rw [if_neg hmem, hA', mwrite_apply]
        by_cases hp : r = p.2 ∧ c = p.1
        · obtain ⟨rfl, rfl⟩ := hp
          rw [if_pos ⟨rfl, rfl⟩, if_pos (by simp)]
        · rw [if_neg hp, if_neg]
          intro hmem2
          rcases List.mem_cons.mp hmem2 with h | h
          · exact hp ⟨by rw [← h], by rw [← h]⟩
          · exact hmem h

/-- Closed form for pass 1 of the renormalization: entry `(r, c)` with
`0 ≤ c < r < n` is shifted by half the sum of the *pre-pass* diagonal values;
every other entry (including the whole diagonal) is untouched. -/
lemma refPass1_apply (n : ℤ) (A : Mat) (r c : ℤ) :
    refPass1 n A r c =
      if 0 ≤ c ∧ c < r ∧ r < n then A r c - 0.5 * (A c c + A r r) else A r c := by
  unfold refPass1
  have h := foldl_refStep_char (lowerPairs n) A
    (fun p hp => (mem_lowerPairs.mp hp).2.1) (nodup_lowerPairs n)
  rw [h.2 r c]
  by_cases hm : (c, r) ∈ lowerPairs n
  · rw [if_pos hm, if_pos]
    exact mem_lowerPairs.mp hm
  · rw [if_neg hm, if_neg]
    intro hc
    exact hm (mem_lowerPairs.mpr hc)

/-- Closed form for pass 2: diagonal entries in range become `0`. -/
lemma zeroDiag_apply (n : ℤ) (A : Mat) (r c : ℤ) :
    zeroDiag n A r c = if r = c ∧ 0 ≤ r ∧ r < n then 0 else A r c := by
  unfold zeroDiag
  have key : ∀ (L : List ℤ) (B : Mat),
      (L.foldl (fun B i => mwrite B i i 0) B) r c =
        if r = c ∧ r ∈ L then 0 else B r c := by
    intro L
    induction L with
    | nil => simp
    | cons i L ih =>
      intro B
      simp only [List.foldl_cons]
      rw [ih]
      by_cases hm : r = c ∧ r ∈ L
      · rw [if_pos hm, if_pos ⟨hm.1, List.mem_cons_of_mem _ hm.2⟩]
      · rw [if_neg hm, mwrite_apply]
        by_cases hp : r = i ∧ c = i
        · rw [if_pos hp, if_pos ⟨by omega, List.mem_cons.mpr (Or.inl hp.1)⟩]
        · rw [if_neg hp, if_neg]
          rintro ⟨rfl, hmem⟩
          rcases List.mem_cons.mp hmem with h | h
          · exact hp ⟨h, h⟩
          · exact hm ⟨rfl, h⟩
  rw [key]
  by_cases hm : r = c ∧ r ∈ intRange 0 n
  · rw [if_pos hm, if_pos ⟨hm.1, (mem_intRange.mp hm.2).1, (mem_intRange.mp hm.2).2⟩]
  · rw [if_neg hm, if_neg]
    rintro ⟨rfl, h0, hn⟩
    exact hm ⟨rfl, mem_intRange.mpr ⟨h0, hn⟩⟩

/-- The renormalized matrix, off-diagonal lower entries. -/
lemma renormalize_offDiag (n : ℤ) (A : Mat) {r c : ℤ}
    (h0 : 0 ≤ c) (hcr : c < r) (hrn : r < n) :
    renormalize n A r c = A r c - 0.5 * (A c c + A r r) := by
  unfold renormalize
  rw [zeroDiag_apply, if_neg (by omega), refPass1_apply, if_pos ⟨h0, hcr, hrn⟩]

/-- The renormalized matrix, diagonal entries. -/
lemma renormalize_diag (n : ℤ) (A : Mat) {i : ℤ} (h0 : 0 ≤ i) (hn : i < n) :
    renormalize n A i i = 0 := by
  unfold renormalize
  rw [zeroDiag_apply, if_pos ⟨rfl, h0, hn⟩]

/-- The renormalized matrix, entries outside the processed square. -/
lemma renormalize_outside (n : ℤ) (A : Mat) {r c : ℤ}
    (h : ¬(0 ≤ c ∧ c ≤ r ∧ r < n)) : renormalize n A r c = A r c := by
  unfold renormalize
  rw [zeroDiag_apply, if_neg (by omega), refPass1_apply, if_neg (by omega)]

lemma mem_neutralPairs {lb U : ℤ} {p : ℤ × ℤ} :
    p ∈ neutralPairs lb U ↔ lb ≤ p.1 ∧ p.1 ≤ p.2 ∧ p.2 < U := by
  unfold neutralPairs
  simp only [List.mem_flatMap, List.mem_map]
  constructor
  · rintro ⟨i, hi, j, hj, rfl⟩
    rw [mem_intRange] at hi hj
    exact ⟨hi.1, by omega, hj.2⟩
  · rintro ⟨h1, h2, h3⟩
    exact ⟨p.1, mem_intRange.mpr ⟨h1, by omega⟩,
      p.2, mem_intRange.mpr ⟨by omega, h3⟩, rfl⟩

lemma nodup_neutralPairs (lb U : ℤ) : (neutralPairs lb U).Nodup := by
  unfold neutralPairs
  rw [List.nodup_flatMap]
  constructor
  · intro i _
    refine List.Nodup.map ?_ (nodup_intRange _ _)
    intro a b h
    exact (Prod.mk.injEq _ _ _ _ ▸ h).2
  · refine List.Pairwise.imp ?_ (nodup_intRange lb U)
    intro i j hij
    intro x hx1 hx2
    exfalso
    simp only [Function.onFun, List.mem_map] at hx1 hx2
    obtain ⟨a, _, ha⟩ := hx1
    obtain ⟨b, _, hb⟩ := hx2
    apply hij
    have h1 : x.1 = i := by rw [← ha]
    have h2 : x.1 = j := by rw [← hb]
    rw [← h1, ← h2]

/-- Characterization of a successful `Except`-monadic fold of per-pair writes
over a duplicate-free pair list: every listed cell holds the (necessarily
successful) per-pair value, every other cell is untouched. -/
lemma foldlM_writes_char (pv : ℤ × ℤ → Except String ℚ) :
    ∀ (L : List (ℤ × ℤ)) (A A1 : Mat), L.Nodup →
    L.foldlM (fun B p => (pv p).map (mwrite B p.2 p.1)) A = Except.ok A1 →
    ∀ r c, ((c, r) ∉ L → A1 r c = A r c) ∧
      ((c, r) ∈ L → pv (c, r) = Except.ok (A1 r c)) := by
  intro L
  induction L with
  | nil =>
    intro A A1 _ hok r c
    simp only [List.foldlM_nil] at hok
    have : A = A1 := by
      have := hok
      simp only [pure, Except.pure] at this
      exact Except.ok.inj this
    subst this
    exact ⟨fun _ => rfl, fun hmem => absurd hmem (List.not_mem_nil _)⟩
  | cons p L ih =>
    intro A A1 hnd hok r c
    have hpnot : p ∉ L := (List.nodup_cons.mp hnd).1
    have hnd' : L.Nodup := hnd.of_cons
    rw [List.foldlM_cons] at hok
    cases hpv : pv p with
    | error e =>
      rw [hpv] at hok
      simp only [Except.map, Except.bind] at hok
      cases hok
    | ok v =>
      rw [hpv] at hok
      simp only [Except.map] at hok
      have hok2 : L.foldlM (fun B p => (pv p).map (mwrite B p.2 p.1))
          (mwrite A p.2 p.1 v) = Except.ok A1 := hok
      have hch := ih (mwrite A p.2 p.1 v) A1 hnd' hok2 r c
      constructor
      · intro hnot
        have hnotL : (c, r) ∉ L := fun h => hnot (List.mem_cons_of_mem _ h)
        rw [hch.1 hnotL, mwrite_apply, if_neg]
        rintro ⟨rfl, rfl⟩
        exact hnot (List.mem_cons_self _ _)
      · intro hmem
        rcases List.mem_cons.mp hmem with heq | hmemL
        · have hnotL : (c, r) ∉ L := heq ▸ hpnot
          have hAr : A1 r c = mwrite A p.2 p.1 v r c := hch.1 hnotL
          have hp2 : p.2 = r := by rw [← heq]
          have hp1 : p.1 = c := by rw [← heq]
          rw [mwrite_apply, hp2, hp1, if_pos ⟨rfl, rfl⟩] at hAr
          rw [← heq] at hpv
          rw [hAr]
          exact hpv
        · exact hch.2 hmemL

/-- Entries of the matrix returned by a *successful* neutral-block pass. -/
lemma neutralPass_ok_char {segments : segmentTypeCollection} {A0 A1 : Mat}
    {param : parameters} {T : ℚ}
    (h : neutralPass segments A0 param T = Except.ok A1) (r c : ℤ) :
    (¬(segments.lowerBoundIndexForGroup 0 ≤ c ∧ c ≤ r ∧ r < upperBoundNeutral segments) →
      A1 r c = A0 r c) ∧
    ((segments.lowerBoundIndexForGroup 0 ≤ c ∧ c ≤ r ∧ r < upperBoundNeutral segments) →
      pairValAt segments param T c r = Except.ok (A1 r c)) := by
  have hch := foldlM_writes_char (fun p => pairValAt segments param T p.1 p.2)
    (neutralPairs (segments.lowerBoundIndexForGroup 0) (upperBoundNeutral segments))
    A0 A1 (nodup_neutralPairs _ _) h r c
  constructor
  · intro hout
    exact hch.1 (fun hmem => hout (mem_neutralPairs.mp hmem))
  · intro hin
    exact hch.2 (mem_neutralPairs.mpr hin)

/-- If some pair of the neutral loop triggers the thrown exception, the whole
`calculateInteractionMatrix` call propagates an error. -/
lemma calculateInteractionMatrix_error_of_pair {segments : segmentTypeCollection}
    {A0 : Mat} {partials : List Mat} {param : parameters} {T : ℚ} {i j : ℤ} {e : String}
    (hmem : (i, j) ∈ neutralPairs (segments.lowerBoundIndexForGroup 0) (upperBoundNeutral segments))
    (herr : pairValAt segments param T i j = Except.error e) :
    ∃ e2, calculateInteractionMatrix segments A0 partials param T = Except.error e2 := by
  have hno : ∀ A1, neutralPass segments A0 param T ≠ Except.ok A1 := by
    intro A1 hok
    have hch := foldlM_writes_char (fun p => pairValAt segments param T p.1 p.2)
      (neutralPairs (segments.lowerBoundIndexForGroup 0) (upperBoundNeutral segments))
      A0 A1 (nodup_neutralPairs _ _) hok j i
    have := hch.2 hmem
    rw [herr] at this
    cases this
  unfold calculateInteractionMatrix
  cases hnp : neutralPass segments A0 param T with
  | error e2 => exact ⟨e2, rfl⟩
  | ok A1 => exact absurd hnp (hno A1)

/-- When no hydrogen-bond branch fires, the pair value is the plain misfit
value. -/
lemma pairVal_of_not_fires {param : parameters} {T sigmai sigmaCorri sigmaj sigmaCorrj : ℚ}
    {hbi hbj : ℕ}
    (h : ¬ hbBranchFires param.SigmaHB sigmai sigmaj hbi hbj) :
    pairVal param T sigmai sigmaCorri sigmaj sigmaCorrj hbi hbj =
      Except.ok (misfitVal param sigmai sigmaCorri sigmaj sigmaCorrj) := by
  unfold hbBranchFires at h
  unfold pairVal
  split_ifs at h ⊢ <;> first | rfl | tauto

/-- **C2** For every neutral-block pair `(i, j)` (`lowerBound[0] ≤ i ≤ j <
max(upperBound[0], upperBound[1], upperBound[2])`) at which no hydrogen-bond
branch fires, the term-evaluation pass writes `A_int(j,i) =
0.5·Aeff·alpha·5.95e6·(σ_i+σ_j)²` when `sw_misfit = 0`, and that value plus
the correction `0.5·Aeff·alpha·5.95e6·(σ_i+σ_j)·fCorr·(σ_trans,i+σ_trans,j)`
with `σ_trans = σ_corr − 0.816·σ` when `sw_misfit ∈ {1, 2}`; no entry outside
the index range is written by this pass. -/
theorem C2_misfit_term (segments : segmentTypeCollection) (A0 A1 : Mat)
    (param : parameters) (T : ℚ) (i j : ℤ)
    (hok : neutralPass segments A0 param T = Except.ok A1)
    (hi : segments.lowerBoundIndexForGroup 0 ≤ i) (hij : i ≤ j)
    (hj : j < upperBoundNeutral segments)
    (hnofire : ¬ hbBranchFires param.SigmaHB (sigAt segments i) (sigAt segments j)
        (hbAt segments i) (hbAt segments j)) :
    (param.sw_misfit = 0 →
      A1 j i = 0.5 * param.Aeff * param.alpha * 5950000 *
        (sigAt segments i + sigAt segments j) ^ 2)
    ∧ ((param.sw_misfit = 1 ∨ param.sw_misfit = 2) →
      A1 j i = 0.5 * param.Aeff * param.alpha * 5950000 *
          (sigAt segments i + sigAt segments j) ^ 2
        + 0.5 * param.Aeff * param.alpha * 5950000 *
          (sigAt segments i + sigAt segments j) * param.fCorr *
          ((sigCorrAt segments i - 0.816 * sigAt segments i) +
            (sigCorrAt segments j - 0.816 * sigAt segments j)))
    ∧ (∀ r c : ℤ,
        ¬(segments.lowerBoundIndexForGroup 0 ≤ c ∧ c ≤ r ∧ r < upperBoundNeutral segments) →
        A1 r c = A0 r c) := by
  have hch := neutralPass_ok_char hok j i
  have hval : pairValAt segments param T i j = Except.ok (A1 j i) :=
    hch.2 ⟨hi, hij, hj⟩
  rw [pairValAt, pairVal_of_not_fires hnofire] at hval
  have hmv : misfitVal param (sigAt segments i) (sigCorrAt segments i)
      (sigAt segments j) (sigCorrAt segments j) = A1 j i := Except.ok.inj hval
  refine ⟨?_, ?_, ?_⟩
  · intro hsw
    rw [← hmv]
    unfold misfitVal misfit_prefactor
    rw [if_neg (by omega)]
    ring
  · intro hsw
    rw [← hmv]
    unfold misfitVal misfit_prefactor
    rw [if_pos (by omega)]
    ring
  · intro r c hout
    exact (neutralPass_ok_char hok r c).1 hout

/-- **C3** Within the neutral-block loop, a hydrogen-bond contribution is
added exactly for the sign pattern `σ_i < −σ_HB < σ_HB < σ_j` with classes
`(1, 2)` — or the mirrored pattern with classes `(2, 1)` — in the amount
`Aeff·CHB_T·(σ_pos − σ_HB)·(σ_neg + σ_HB)`, where
`CHB_T = CHB·3.67e7·max(0, 1 − CHBT + CHBT·298.15/T)`; any other class
combination under the same sign condition (other than the exactly swapped
orientation, which throws) adds no hydrogen-bond term. -/
theorem C3_hydrogen_bond_term (param : parameters) (T : ℚ)
    (sigmai sigmaCorri sigmaj sigmaCorrj : ℚ) (hbi hbj : ℕ)
    (hHB : 0 ≤ param.SigmaHB) :
    (CHB_T_of param T =
      param.CHB * 36700000 * max 0 (1 - param.CHBT + param.CHBT * (298.15 / T)))
    ∧ (sigmai < -param.SigmaHB ∧ sigmaj > param.SigmaHB →
        (hbi = 1 ∧ hbj = 2 →
          pairVal param T sigmai sigmaCorri sigmaj sigmaCorrj hbi hbj =
            Except.ok (misfitVal param sigmai sigmaCorri sigmaj sigmaCorrj +
              param.Aeff * CHB_T_of param T *
                (sigmaj - param.SigmaHB) * (sigmai + param.SigmaHB)))
        ∧ (¬(hbi = 1 ∧ hbj = 2) → ¬(hbi = 2 ∧ hbj = 1) →
          pairVal param T sigmai sigmaCorri sigmaj sigmaCorrj hbi hbj =
            Except.ok (misfitVal param sigmai sigmaCorri sigmaj sigmaCorrj)))
    ∧ (sigmaj < -param.SigmaHB ∧ sigmai > param.SigmaHB →
        (hbi = 2 ∧ hbj = 1 →
          pairVal param T sigmai sigmaCorri sigmaj sigmaCorrj hbi hbj =
            Except.ok (misfitVal param sigmai sigmaCorri sigmaj sigmaCorrj +
              param.Aeff * CHB_T_of param T *
                (sigmai - param.SigmaHB) * (sigmaj + param.SigmaHB)))
        ∧ (¬(hbi = 1 ∧ hbj = 2) → ¬(hbi = 2 ∧ hbj = 1) →
          pairVal param T sigmai sigmaCorri sigmaj sigmaCorrj hbi hbj =
            Except.ok (misfitVal param sigmai sigmaCorri sigmaj sigmaCorrj))) := by
  refine ⟨?_, ?_, ?_⟩
  · unfold CHB_T_of
    rcases le_or_lt (1 - param.CHBT + param.CHBT * (298.15 / T)) 0 with hle | hlt
    · rw [if_neg (by linarith), max_eq_left hle, mul_zero]
    · rw [if_pos hlt, max_eq_right (le_of_lt hlt)]
      norm_num
  · intro hsign
    constructor
    · rintro ⟨rfl, rfl⟩
      unfold pairVal hb_prefactor
      rw [if_pos hsign, if_pos ⟨rfl, rfl⟩]
    · intro hno1 hno2
      unfold pairVal
      rw [if_pos hsign, if_neg hno1, if_neg hno2]
  · intro hsign
    have hnot1 : ¬(sigmai < -param.SigmaHB ∧ sigmaj > param.SigmaHB) := by
      rintro ⟨h1, h2⟩
      have := hsign.1
      linarith
    constructor
    · rintro ⟨rfl, rfl⟩
      unfold pairVal hb_prefactor
      rw [if_neg hnot1, if_pos hsign, if_pos ⟨rfl, rfl⟩]
    · intro hno1 hno2
      unfold pairVal
      rw [if_neg hnot1, if_pos hsign, if_neg hno2, if_neg hno1]

/-- The thrown-exception condition of the per-pair evaluation, as an iff
(for a nonnegative hydrogen-bond threshold the two sign gates are mutually
exclusive). -/
lemma pairVal_isError_iff (param : parameters) (T sigmai sigmaCorri sigmaj sigmaCorrj : ℚ)
    (hbi hbj : ℕ) (hHB : 0 ≤ param.SigmaHB) :
    (∃ e, pairVal param T sigmai sigmaCorri sigmaj sigmaCorrj hbi hbj = Except.error e) ↔
      ((sigmai < -param.SigmaHB ∧ sigmaj > param.SigmaHB ∧ hbi = 2 ∧ hbj = 1) ∨
        (sigmaj < -param.SigmaHB ∧ sigmai > param.SigmaHB ∧ hbi = 1 ∧ hbj = 2)) := by
  unfold pairVal
  by_cases hs1 : sigmai < -param.SigmaHB ∧ sigmaj > param.SigmaHB
  · rw [if_pos hs1]
    by_cases hc1 : hbi = 1 ∧ hbj = 2
    · rw [if_pos hc1]
      constructor
      · rintro ⟨e, he⟩
        exact Except.noConfusion he
      · rintro (⟨_, _, h2, _⟩ | ⟨hb, _⟩)
        · exact absurd (hc1.1.symm.trans h2) (by decide)
        · exact absurd hb (by linarith [hs1.2])
    · rw [if_neg hc1]
      by_cases hc2 : hbi = 2 ∧ hbj = 1
      · rw [if_pos hc2]
        constructor
        · intro _
          exact Or.inl ⟨hs1.1, hs1.2, hc2.1, hc2.2⟩
        · intro _
          exact ⟨_, rfl⟩
      · rw [if_neg hc2]
        constructor
        · rintro ⟨e, he⟩
          exact Except.noConfusion he
        · rintro (⟨_, _, h1, h2⟩ | ⟨hb, _⟩)
          · exact absurd ⟨h1, h2⟩ hc2
          · exact absurd hb (by linarith [hs1.2])
  · rw [if_neg hs1]
    by_cases hs2 : sigmaj < -param.SigmaHB ∧ sigmai > param.SigmaHB
    · rw [if_pos hs2]
      by_cases hc2 : hbi = 2 ∧ hbj = 1
      · rw [if_pos hc2]
        constructor
        · rintro ⟨e, he⟩
          exact Except.noConfusion he
        · rintro (⟨ha, hb, _⟩ | ⟨_, _, h1, _⟩)
          · exact absurd ⟨ha, hb⟩ hs1
          · exact absurd (hc2.1.symm.trans h1) (by decide)
      · rw [if_neg hc2]
        by_cases hc1 : hbi = 1 ∧ hbj = 2
        · rw [if_pos hc1]
          constructor
          · intro _
            exact Or.inr ⟨hs2.1, hs2.2, hc1.1, hc1.2⟩
          · intro _
            exact ⟨_, rfl⟩
        · rw [if_neg hc1]
          constructor
          · rintro ⟨e, he⟩
            exact Except.noConfusion he
          · rintro (⟨ha, hb, _⟩ | ⟨_, _, h1, h2⟩)
            · exact absurd ⟨ha, hb⟩ hs1
            · exact absurd ⟨h1, h2⟩ hc1
    · rw [if_neg hs2]
      constructor
      · rintro ⟨e, he⟩
        exact Except.noConfusion he
      · rintro (⟨ha, hb, _⟩ | ⟨ha, hb, _⟩)
        · exact absurd ⟨ha, hb⟩ hs1
        · exact absurd ⟨ha, hb⟩ hs2

/-- **C4** The build-aborting exception fires exactly when the hydrogen-bond
sign condition holds but the donor/acceptor classes are in the opposite
orientation: the per-pair evaluation errors iff the negative-σ segment
carries class 2 and the positive-σ segment class 1; and any neutral-loop pair
in that situation makes `calculateInteractionMatrix` return an error. -/
theorem C4_invariant_violation (segments : segmentTypeCollection) (A0 : Mat)
    (partials : List Mat) (param : parameters) (T : ℚ) (i j : ℤ)
    (hHB : 0 ≤ param.SigmaHB) :
    ((∃ e, pairValAt segments param T i j = Except.error e) ↔
      ((sigAt segments i < -param.SigmaHB ∧ sigAt segments j > param.SigmaHB ∧
          hbAt segments i = 2 ∧ hbAt segments j = 1) ∨
        (sigAt segments j < -param.SigmaHB ∧ sigAt segments i > param.SigmaHB ∧
          hbAt segments i = 1 ∧ hbAt segments j = 2)))
    ∧ (((sigAt segments i < -param.SigmaHB ∧ sigAt segments j > param.SigmaHB ∧
          hbAt segments i = 2 ∧ hbAt segments j = 1) ∨
        (sigAt segments j < -param.SigmaHB ∧ sigAt segments i > param.SigmaHB ∧
          hbAt segments i = 1 ∧ hbAt segments j = 2)) →
      segments.lowerBoundIndexForGroup 0 ≤ i → i ≤ j → j < upperBoundNeutral segments →
      ∃ e2, calculateInteractionMatrix segments A0 partials param T = Except.error e2) := by
  have hiff := pairVal_isError_iff param T (sigAt segments i) (sigCorrAt segments i)
    (sigAt segments j) (sigCorrAt segments j) (hbAt segments i) (hbAt segments j) hHB
  constructor
  · exact hiff
  · intro hcond hlo hij hup
    have hmem : (i, j) ∈ neutralPairs (segments.lowerBoundIndexForGroup 0)
        (upperBoundNeutral segments) := mem_neutralPairs.mpr ⟨hlo, hij, hup⟩
    obtain ⟨e, he⟩ := hiff.mpr hcond
    exact calculateInteractionMatrix_error_of_pair hmem he

/-- **C1** With `sw_useSegmentReferenceStateForInteractionMatrix = 1`, after
`calculateInteractionMatrix` returns, every lower-triangular entry
`A_int(j,i)` (`j > i`) equals its pre-renormalization value minus
`0.5·(A_int(i,i) + A_int(j,j))` taken at the *pre-renormalization* diagonal
values, and every diagonal entry is exactly zero; when additionally
`sw_calculateContactStatisticsAndAdditionalProperties > 0`, the identical
two-pass renormalization holds independently for each of the
`numberOfPartialInteractionMatrices` partial matrices. -/
theorem C1_reference_state_renormalization (segments : segmentTypeCollection)
    (A0 : Mat) (partials : List Mat) (param : parameters) (T : ℚ)
    (A1 M : Mat) (P : List Mat)
    (hsw : param.sw_useSegmentReferenceStateForInteractionMatrix = 1)
    (hn : neutralPass segments A0 param T = Except.ok A1)
    (hc : calculateInteractionMatrix segments A0 partials param T = Except.ok (M, P)) :
    (∀ i j : ℤ, 0 ≤ i → i < j → j < (segments.size : ℤ) →
      M j i = A1 j i - 0.5 * (A1 i i + A1 j j))
    ∧ (∀ i : ℤ, 0 ≤ i → i < (segments.size : ℤ) → M i i = 0)
    ∧ (0 < param.sw_calculateContactStatisticsAndAdditionalProperties →
       ∀ h : ℕ, h < param.numberOfPartialInteractionMatrices → h < partials.length →
        (∀ i j : ℤ, 0 ≤ i → i < j → j < (segments.size : ℤ) →
          (P.getD h default) j i = (partials.getD h default) j i
            - 0.5 * ((partials.getD h default) i i + (partials.getD h default) j j))
        ∧ (∀ i : ℤ, 0 ≤ i → i < (segments.size : ℤ) → (P.getD h default) i i = 0)) := by
  unfold calculateInteractionMatrix at hc
  rw [hn] at hc
  dsimp only at hc
  rw [if_pos hsw] at hc
  have hpair := Except.ok.inj hc
  injection hpair with hM0 hP0
  have hM : M = renormalize (segments.size : ℤ) A1 := hM0.symm
  have hP : P = (if param.sw_calculateContactStatisticsAndAdditionalProperties > 0 then
      partials.mapIdx (fun h Mh =>
        if h < param.numberOfPartialInteractionMatrices then
          renormalize (segments.size : ℤ) Mh
        else Mh)
    else partials) := hP0.symm
  refine ⟨?_, ?_, ?_⟩
  · intro i j h0 hij hjn
    rw [hM]
    exact renormalize_offDiag _ _ h0 hij hjn
  · intro i h0 hin
    rw [hM]
    exact renormalize_diag _ _ h0 hin
  · intro hcontact h hnum hlen
    have hPh : P.getD h default = renormalize (segments.size : ℤ) (partials.getD h default) := by
      rw [hP, if_pos hcontact]
      simp [List.getD_eq_getElem?_getD, List.getElem?_eq_getElem hlen, hnum]
    constructor
    · intro i j h0 hij hjn
      rw [hPh]
      exact renormalize_offDiag _ _ h0 hij hjn
    · intro i h0 hin
      rw [hPh]
      exact renormalize_diag _ _ h0 hin


/-- **C5 (counterexample)** At the claim's own inputs — `σ_i = −0.02`,
`σ_j = 0.02`, `σ_HB = 0.0084`, correct classes `(1, 2)`, `Aeff = 1 > 0`,
`CHB > 0` with `CHB_T = 1 > 0` — the hydrogen-bond term added by the code
equals the documented closed form but is strictly *negative*
(`= −841/6250000`), so the claimed strict positivity is false. -/
theorem C5_counterexample :
    (0 < c5param.Aeff ∧ 0 < c5param.CHB ∧ 0 < CHB_T_of c5param 298.15) ∧
    pairVal c5param 298.15 (-0.02) 0 0.02 0 1 2 =
      Except.ok (c5param.Aeff * CHB_T_of c5param 298.15 *
        (0.02 - c5param.SigmaHB) * (-0.02 + c5param.SigmaHB)) ∧
    ¬(0 < c5param.Aeff * CHB_T_of c5param 298.15 *
        (0.02 - c5param.SigmaHB) * (-0.02 + c5param.SigmaHB)) := by
  have hCT : CHB_T_of c5param 298.15 = 1 := by
    unfold CHB_T_of
    norm_num [c5param]
  refine ⟨⟨by norm_num [c5param], by norm_num [c5param], by rw [hCT]; norm_num⟩, ?_, ?_⟩
  · unfold pairVal hb_prefactor
    rw [if_pos ⟨by norm_num [c5param], by norm_num [c5param]⟩, if_pos ⟨rfl, rfl⟩]
    have hm : misfitVal c5param (-0.02) 0 0.02 0 = 0 := by
      unfold misfitVal misfit_prefactor
      norm_num [c5param]
    rw [hm, zero_add]
  · rw [hCT]
    norm_num [c5param]

/-- **C5 (amended)** For the neutral-block pair `σ_i = −0.02, σ_j = 0.02`
with `σ_HB = 0.0084`, correct donor/acceptor classes (negative segment class
1, positive segment class 2) and positive `Aeff`, `CHB` with `CHB_T > 0`, the
hydrogen-bond term added by the code equals
`Aeff·CHB_T·(σ_j − σ_HB)·(σ_i + σ_HB)` and is strictly *negative*
(attractive), not positive. -/
theorem C5_hb_term_attractive (param : parameters) (T sigmaCorri sigmaCorrj : ℚ)
    (hbi hbj : ℕ)
    (hσHB : param.SigmaHB = 0.0084)
    (hbi1 : hbi = 1) (hbj2 : hbj = 2)
    (hAeff : 0 < param.Aeff) (hCHB : 0 < param.CHB)
    (hCHBT : 0 < CHB_T_of param T) :
    pairVal param T (-0.02) sigmaCorri 0.02 sigmaCorrj hbi hbj =
      Except.ok (misfitVal param (-0.02) sigmaCorri 0.02 sigmaCorrj +
        param.Aeff * CHB_T_of param T * (0.02 - param.SigmaHB) * (-0.02 + param.SigmaHB))
    ∧ param.Aeff * CHB_T_of param T * (0.02 - param.SigmaHB) * (-0.02 + param.SigmaHB) < 0 := by
  constructor
  · unfold pairVal hb_prefactor
    rw [if_pos ⟨by rw [hσHB]; norm_num, by rw [hσHB]; norm_num⟩,
      if_pos ⟨hbi1, hbj2⟩]
  · have hpos : 0 < param.Aeff * CHB_T_of param T * (0.02 - param.SigmaHB) := by
      apply mul_pos (mul_pos hAeff hCHBT)
      rw [hσHB]
      norm_num
    apply mul_neg_of_pos_of_neg hpos
    rw [hσHB]
    norm_num

lemma exOk_spec {α : Type} [Inhabited α] (x : Except String α)
    (h : x.isOk = true) : x = Except.ok (exOk x) := by
  cases x with
  | ok a => rfl
  | error e => exact absurd h (by simp [Except.isOk, Except.toBool])

lemma exSome_spec {α : Type} [Inhabited α] (x : Option α)
    (h : x.isSome = true) : x = some (exSome x) := by
  cases x with
  | some a => rfl
  | none => exact absurd h (by simp)

/-- **C10** A default-constructed `segmentTypeCollection` has an empty
per-molecule area-row template (the C++ constructor body builds a discarded
temporary instead of delegating), so the first `add` with a nonzero area
appends a zero-length row and the write `SegmentTypeAreas[index][ind_molecule]`
is out of bounds even for `ind_molecule = 0`; on a collection freshly built
with `segmentTypeCollection(n)`, the first add's area write is in bounds
exactly when `ind_molecule < n`. -/
theorem C10_default_ctor_out_of_bounds (m g : ℕ) (s sc : ℚ) (hb an : ℕ)
    (A : ℚ) (n : ℕ) (hA : A ≠ 0) :
    segmentTypeCollection.mkDefault.add m g s sc hb an A = none
    ∧ (((segmentTypeCollection.mkNew n).add m g s sc hb an A).isSome ↔ m < n) := by
  constructor
  · simp [segmentTypeCollection.add, segmentTypeCollection.mkDefault,
      segmentTypeCollection.appendKey, segmentTypeCollection.addWrite,
      segmentTypeCollection.mkNew, segmentTypeCollection.size, hA]
  · simp [segmentTypeCollection.add, segmentTypeCollection.mkNew,
      segmentTypeCollection.appendKey, segmentTypeCollection.addWrite,
      segmentTypeCollection.size, hA]

lemma getD_append_self {α : Type} (l l2 : List α) (d : α) {i : ℕ} (h : i < l.length) :
    (l ++ l2).getD i d = l.getD i d := by
  simp [List.getD_eq_getElem?_getD, List.getElem?_append_left h]

lemma getD_append_length {α : Type} (l : List α) (x d : α) :
    (l ++ [x]).getD l.length d = x := by
  simp [List.getD_eq_getElem?_getD, List.getElem?_append_right (Nat.le_refl _)]

lemma getD_set_self {α : Type} (l : List α) (x d : α) {i : ℕ} (h : i < l.length) :
    (l.set i x).getD i d = x := by
  simp [List.getD_eq_getElem?_getD, List.getElem?_set_self h]

/-- **C8** Two `add` calls with the same key `(group, hbType, sigma,
sigmaCorr, atomicNumber)`, nonzero areas `a1`, `a2` and molecule index `m`,
on a collection that does not yet hold the key (with a zero row template of
width `n > m`): the first call appends exactly one segment type, the second
call finds it and does not grow the collection, the key is stored exactly
once, and its per-molecule area row accumulates `a1 + a2` at index `m`. -/
theorem C8_dedup_and_area_accumulation
    (c c1 c2 : segmentTypeCollection) (m g : ℕ) (s sc : ℚ) (hb an : ℕ)
    (a1 a2 : ℚ) (n : ℕ)
    (hT : c.SegmentTypeAreasRowTemplate = List.replicate n 0)
    (hS : c.sizesOk)
    (hK : segmentTypeCollection.keyCount c g s sc hb an = 0)
    (hm : m < n) (ha1 : a1 ≠ 0) (ha2 : a2 ≠ 0)
    (h1 : c.add m g s sc hb an a1 = some c1)
    (h2 : c1.add m g s sc hb an a2 = some c2) :
    c1.size = c.size + 1 ∧ c2.size = c1.size ∧
    segmentTypeCollection.keyCount c2 g s sc hb an = 1 ∧
    c2.SegmentTypeAreas.getD c.size [] = (List.replicate n 0).set m (a1 + a2) := by
  obtain ⟨hSg, hSs, hSsc, hSan, hSa⟩ := hS
  have hnomatch : ∀ i ∈ List.range c.size,
      ¬ (decide (segmentTypeCollection.keyMatch c g s sc hb an i) = true) := by
    intro i hi hp
    have hfil : (List.range c.size).filter
        (fun i => decide (segmentTypeCollection.keyMatch c g s sc hb an i)) = [] :=
      List.length_eq_zero.mp hK
    have hmem : i ∈ (List.range c.size).filter
        (fun i => decide (segmentTypeCollection.keyMatch c g s sc hb an i)) :=
      List.mem_filter.mpr ⟨hi, hp⟩
    rw [hfil] at hmem
    exact absurd hmem (List.not_mem_nil _)
  have hfind : (List.range c.size).find?
      (fun i => decide (segmentTypeCollection.keyMatch c g s sc hb an i)) = none :=
    List.find?_eq_none.mpr hnomatch
  unfold segmentTypeCollection.add at h1
  rw [if_neg ha1, hfind] at h1
  have hrow1 : (segmentTypeCollection.appendKey c g s sc hb an).SegmentTypeAreas.getD
      c.size [] = List.replicate n 0 := by
    show (c.SegmentTypeAreas ++ [c.SegmentTypeAreasRowTemplate]).getD c.size [] = _
    rw [← hSa, getD_append_length, hT]
  unfold segmentTypeCollection.addWrite at h1
  rw [hrow1] at h1
  rw [if_pos (by simpa using hm)] at h1
  have hget0 : (List.replicate n (0 : ℚ)).getD m 0 = 0 := by
    simp [List.getD_eq_getElem?_getD, List.getElem?_replicate_of_lt hm]
  rw [hget0, zero_add] at h1
  have hc1 := (Option.some.inj h1).symm
  have hc1size : c1.size = c.size + 1 := by
    rw [hc1]
    show (c.SegmentTypeHBtype ++ [hb]).length = _
    simp [segmentTypeCollection.size]
  have hkm_lt : ∀ i, i < c.size →
      (segmentTypeCollection.keyMatch c1 g s sc hb an i ↔
        segmentTypeCollection.keyMatch c g s sc hb an i) := by
    intro i hi
    unfold segmentTypeCollection.keyMatch segmentTypeCollection.grOf
      segmentTypeCollection.hbOf segmentTypeCollection.sgOf
      segmentTypeCollection.scOf segmentTypeCollection.anOf
    rw [hc1]
    dsimp only [segmentTypeCollection.appendKey]
    rw [getD_append_self _ _ _ (by omega : i < c.SegmentTypeGroup.length),
      getD_append_self _ _ _ (hi : i < c.SegmentTypeHBtype.length),
      getD_append_self _ _ _ (by omega : i < c.SegmentTypeSigma.length),
      getD_append_self _ _ _ (by omega : i < c.SegmentTypeSigmaCorr.length),
      getD_append_self _ _ _ (by omega : i < c.SegmentTypeAtomicNumber.length)]
  have hkm_at : segmentTypeCollection.keyMatch c1 g s sc hb an c.size := by
    unfold segmentTypeCollection.keyMatch segmentTypeCollection.grOf
      segmentTypeCollection.hbOf segmentTypeCollection.sgOf
      segmentTypeCollection.scOf segmentTypeCollection.anOf
    rw [hc1]
    dsimp only [segmentTypeCollection.appendKey]
    refine ⟨?_, ?_, ?_, ?_, ?_⟩
    · have h := getD_append_length c.SegmentTypeGroup g 0
      rw [hSg] at h
      exact h
    · exact getD_append_length c.SegmentTypeHBtype hb 0
    · have h := getD_append_length c.SegmentTypeSigma s 0
      rw [hSs] at h
      exact h
    · have h := getD_append_length c.SegmentTypeSigmaCorr sc 0
      rw [hSsc] at h
      exact h
    · have h := getD_append_length c.SegmentTypeAtomicNumber an 0
      rw [hSan] at h
      exact h
  have hfind1 : (List.range c1.size).find?
      (fun i => decide (segmentTypeCollection.keyMatch c1 g s sc hb an i)) =
        some c.size := by
    rw [hc1size, List.range_succ, List.find?_append]
    have hpre : (List.range c.size).find?
        (fun i => decide (segmentTypeCollection.keyMatch c1 g s sc hb an i)) = none := by
      rw [List.find?_eq_none]
      intro i hi hp
      have hik : segmentTypeCollection.keyMatch c1 g s sc hb an i :=
        of_decide_eq_true hp
      exact hnomatch i hi
        (decide_eq_true ((hkm_lt i (List.mem_range.mp hi)).mp hik))
    rw [hpre]
    have hsingle : List.find?
        (fun i => decide (segmentTypeCollection.keyMatch c1 g s sc hb an i)) [c.size] =
        some c.size := by
      simp [List.find?_cons, hkm_at]
    rw [hsingle]
    rfl
  unfold segmentTypeCollection.add at h2
  rw [if_neg ha2, hfind1] at h2
  dsimp only at h2
  have hlenAreas1 : c1.SegmentTypeAreas.length = c.size + 1 := by
    rw [hc1]
    dsimp only [segmentTypeCollection.appendKey]
    simp [hSa]
  have hrow2 : c1.SegmentTypeAreas.getD c.size [] =
      (List.replicate n (0 : ℚ)).set m a1 := by
    rw [hc1]
    dsimp only [segmentTypeCollection.appendKey]
    exact getD_set_self _ _ _ (by simp [hSa])
  unfold segmentTypeCollection.addWrite at h2
  rw [hrow2] at h2
  rw [if_pos (by simpa using hm)] at h2
  have hgeta1 : ((List.replicate n (0 : ℚ)).set m a1).getD m 0 = a1 :=
    getD_set_self _ _ _ (by simpa using hm)
  rw [hgeta1, List.set_set] at h2
  have hc2 := (Option.some.inj h2).symm
  have hc2size : c2.size = c1.size := by
    rw [hc2]
    rfl
  have hkm2 : ∀ i, segmentTypeCollection.keyMatch c2 g s sc hb an i ↔
      segmentTypeCollection.keyMatch c1 g s sc hb an i := by
    intro i
    rw [hc2]
    exact Iff.rfl
  refine ⟨hc1size, hc2size, ?_, ?_⟩
  · unfold segmentTypeCollection.keyCount
    have hsz : c2.size = c.size + 1 := by rw [hc2size, hc1size]
    rw [hsz, List.range_succ, List.filter_append]
    have hfil1 : (List.range c.size).filter
        (fun i => decide (segmentTypeCollection.keyMatch c2 g s sc hb an i)) = [] := by
      rw [List.filter_eq_nil_iff]
      intro i hi hp
      have hik : segmentTypeCollection.keyMatch c2 g s sc hb an i :=
        of_decide_eq_true hp
      exact hnomatch i hi
        (decide_eq_true ((hkm_lt i (List.mem_range.mp hi)).mp ((hkm2 i).mp hik)))
    rw [hfil1]
    have hp2 : decide (segmentTypeCollection.keyMatch c2 g s sc hb an c.size) = true :=
      decide_eq_true ((hkm2 c.size).mpr hkm_at)
    simp [hp2]
  · rw [hc2]
    dsimp only
    exact getD_set_self _ _ _ (by omega)

lemma ite_ne_lt_iff {α : Type} [LinearOrder α] {a b : α} {P : Prop}
    [Decidable (a ≠ b)] :
    (if a ≠ b then a < b else P) ↔ (a < b ∨ (a = b ∧ P)) := by
  rcases eq_or_ne a b with h | h
  · subst h
    simp [lt_irrefl]
  · rw [if_pos h]
    constructor
    · exact Or.inl
    · rintro (hlt | ⟨heq, _⟩)
      · exact hlt
      · exact absurd heq h

lemma ite_and_ne_lt_iff {α : Type} [LinearOrder α] {Q : Prop} {a b : α} {P : Prop}
    [Decidable (Q ∧ a ≠ b)] :
    (if Q ∧ a ≠ b then a < b else P) ↔ ((Q ∧ a < b) ∨ ((Q → a = b) ∧ P)) := by
  by_cases hq : Q
  · rcases eq_or_ne a b with h | h
    · subst h
      rw [if_neg (by tauto)]
      constructor
      · intro hp
        exact Or.inr ⟨fun _ => rfl, hp⟩
      · rintro (⟨_, hlt⟩ | ⟨_, hp⟩)
        · exact absurd hlt (lt_irrefl a)
        · exact hp
    · rw [if_pos ⟨hq, h⟩]
      constructor
      · intro hlt
        exact Or.inl ⟨hq, hlt⟩
      · rintro (⟨_, hlt⟩ | ⟨him, _⟩)
        · exact hlt
        · exact absurd (him hq) h
  · rw [if_neg (by tauto)]
    constructor
    · intro hp
      exact Or.inr ⟨fun q => absurd q hq, hp⟩
    · rintro (⟨q, _⟩ | ⟨_, hp⟩)
      · exact absurd q hq
      · exact hp

/-- The comparator is the strict lexicographic order on the sort keys. -/
lemma cmpLt_iff_sortKey (c : segmentTypeCollection) (i j : ℕ) :
    segmentTypeCollection.cmpLt c i j ↔ sortKey c i < sortKey c j := by
  unfold segmentTypeCollection.cmpLt sortKey monoKey
  simp only [Prod.Lex.lt_iff]
  rw [ite_ne_lt_iff, ite_and_ne_lt_iff, ite_ne_lt_iff, ite_ne_lt_iff,
    ite_ne_lt_iff, ite_ne_lt_iff]
  refine or_congr Iff.rfl (and_congr_right fun h => ?_)
  rw [← h]
  by_cases hq : c.grOf i = 3 ∨ c.grOf i = 5
  · rw [if_pos hq, if_pos hq]
    exact or_congr (and_iff_right hq) (and_congr_left fun _ => imp_iff_right hq)
  · rw [if_neg hq, if_neg hq]
    simp [hq, lt_irrefl]

/-- Decomposition of the full key order into value order with index
tie-break. -/
lemma sortKey_lt_iff (c : segmentTypeCollection) (i j : ℕ) :
    sortKey c i < sortKey c j ↔
      (valKey c i < valKey c j ∨ (valKey c i = valKey c j ∧ i < j)) := by
  unfold sortKey valKey
  simp only [Prod.Lex.lt_iff, toLex_inj, Prod.mk.injEq]
  tauto

lemma sortKeyIdx_sortKey (c : segmentTypeCollection) (i : ℕ) :
    sortKeyIdx (sortKey c i) = i := rfl

lemma sortKey_inj (c : segmentTypeCollection) {i j : ℕ}
    (h : sortKey c i = sortKey c j) : i = j := by
  have h2 := congrArg sortKeyIdx h
  rw [sortKeyIdx_sortKey, sortKeyIdx_sortKey] at h2
  exact h2

/-- The reflexive closure of the comparator, used by the sort. -/
def leCmp (c : segmentTypeCollection) : ℕ → ℕ → Prop :=
  fun i j => ¬ segmentTypeCollection.cmpLt c j i

lemma leCmp_total (c : segmentTypeCollection) : ∀ i j, leCmp c i j ∨ leCmp c j i := by
  intro i j
  unfold leCmp
  rw [cmpLt_iff_sortKey, cmpLt_iff_sortKey]
  rcases lt_trichotomy (sortKey c i) (sortKey c j) with h | h | h
  · exact Or.inl (by rw [not_lt]; exact le_of_lt h)
  · exact Or.inl (by rw [h]; exact lt_irrefl _)
  · exact Or.inr (by rw [not_lt]; exact le_of_lt h)

lemma leCmp_trans (c : segmentTypeCollection) :
    ∀ i j k, leCmp c i j → leCmp c j k → leCmp c i k := by
  intro i j k hij hjk
  unfold leCmp at *
  rw [cmpLt_iff_sortKey] at *
  rw [not_lt] at *
  exact le_trans hij hjk

lemma leCmp_antisymm (c : segmentTypeCollection) :
    ∀ i j, leCmp c i j → leCmp c j i → i = j := by
  intro i j hij hji
  unfold leCmp at *
  rw [cmpLt_iff_sortKey, not_lt] at hij hji
  exact sortKey_inj c (le_antisymm hij hji)

/-! ### Facts about the permutation vector -/

lemma perm_gpv (c : segmentTypeCollection) :
    (segmentTypeCollection.get_permutation_vector c).Perm
      (List.range c.SegmentTypeGroup.length) :=
  List.perm_insertionSort _ _

lemma length_gpv (c : segmentTypeCollection) :
    (segmentTypeCollection.get_permutation_vector c).length =
      c.SegmentTypeGroup.length := by
  rw [(perm_gpv c).length_eq, List.length_range]

lemma mem_gpv (c : segmentTypeCollection) {x : ℕ} :
    x ∈ segmentTypeCollection.get_permutation_vector c ↔
      x < c.SegmentTypeGroup.length := by
  rw [(perm_gpv c).mem_iff, List.mem_range]

lemma nodup_gpv (c : segmentTypeCollection) :
    (segmentTypeCollection.get_permutation_vector c).Nodup :=
  (List.Perm.nodup_iff (perm_gpv c)).mpr (List.nodup_range _)

lemma sorted_gpv (c : segmentTypeCollection) :
    (segmentTypeCollection.get_permutation_vector c).Pairwise
      (fun i j => ¬ segmentTypeCollection.cmpLt c j i) := by
  haveI : IsTotal ℕ (fun i j => ¬ segmentTypeCollection.cmpLt c j i) :=
    ⟨leCmp_total c⟩
  haveI : IsTrans ℕ (fun i j => ¬ segmentTypeCollection.cmpLt c j i) :=
    ⟨leCmp_trans c⟩
  exact List.sorted_insertionSort _ _

/-! ### Facts about the bounds scan -/

lemma writeGroupArr_some_inv {f : Fin 7 → ℤ} {idx v : ℤ} {g : Fin 7 → ℤ}
    (h : writeGroupArr f idx v = some g) : 0 ≤ idx ∧ idx < 7 := by
  unfold writeGroupArr at h
  split_ifs at h with hc
  exact hc

lemma writeGroupArr_of_inrange (f : Fin 7 → ℤ) (idx v : ℤ)
    (h1 : 0 ≤ idx) (h2 : idx < 7) :
    writeGroupArr f idx v = some (Function.update f ⟨idx.toNat, by omega⟩ v) := by
  unfold writeGroupArr
  rw [dif_pos ⟨h1, h2⟩]

/-- Invariant preservation through an `Option`-monadic fold. -/
lemma foldlM_option_inv {σ α : Type} (f : σ → α → Option σ) (Inv : σ → Prop)
    (l : List α) (hstep : ∀ s a, a ∈ l → Inv s → ∀ s2, f s a = some s2 → Inv s2) :
    ∀ s0 s1, l.foldlM f s0 = some s1 → Inv s0 → Inv s1 := by
  induction l with
  | nil =>
    intro s0 s1 hfold h0
    simp only [List.foldlM_nil] at hfold
    cases hfold
    exact h0
  | cons a l ih =>
    intro s0 s1 hfold h0
    rw [List.foldlM_cons] at hfold
    cases hstep2 : f s0 a with
    | none =>
      rw [hstep2] at hfold
      cases hfold
    | some s2 =>
      rw [hstep2] at hfold
      exact ih (fun s b hb => hstep s b (List.mem_cons_of_mem _ hb)) s2 s1 hfold
        (hstep s0 a (List.mem_cons_self _ _) h0 s2 hstep2)

/-- The scan always succeeds, and keeps `temporaryindex` in `[0, 6]`, once it
starts from a group value in `[0, 6]` and all scanned values are `≤ 6`. -/
lemma scan_success (gs : List ℕ) :
    ∀ (l : List ℕ) (st : ScanState), (∀ i ∈ l, gs.getD i 0 ≤ 6) →
    0 ≤ st.temp → st.temp ≤ 6 →
    ∃ st2, l.foldlM (scanStep gs) st = some st2 ∧ 0 ≤ st2.temp ∧ st2.temp ≤ 6 := by
  intro l
  induction l with
  | nil =>
    intro st _ h0 h6
    exact ⟨st, rfl, h0, h6⟩
  | cons i l ih =>
    intro st hvals h0 h6
    have hgi : (gs.getD i 0 : ℤ) ≤ 6 := by
      have := hvals i (List.mem_cons_self _ _)
      omega
    by_cases ht : st.temp = ((gs.getD i 0 : ℕ) : ℤ)
    · obtain ⟨st2, hfold, h02, h62⟩ :=
        ih st (fun j hj => hvals j (List.mem_cons_of_mem _ hj)) h0 h6
      refine ⟨st2, ?_, h02, h62⟩
      rw [List.foldlM_cons]
      have hstep : scanStep gs st i = some st := by
        unfold scanStep
        rw [if_pos ht]
      rw [hstep]
      simpa using hfold
    · have hnm1 : ¬ st.temp = -1 := by omega
      have hup := writeGroupArr_of_inrange st.upper st.temp (i : ℤ) h0 (by omega)
      have hlo := writeGroupArr_of_inrange st.lower ((gs.getD i 0 : ℕ) : ℤ) (i : ℤ)
        (by omega) (by omega)
      have hstep : scanStep gs st i = some
          (ScanState.mk ((gs.getD i 0 : ℕ) : ℤ)
            (Function.update st.lower ⟨((gs.getD i 0 : ℕ) : ℤ).toNat, by omega⟩ (i : ℤ))
            (Function.update st.upper ⟨st.temp.toNat, by omega⟩ (i : ℤ))) := by
        unfold scanStep
        rw [if_neg ht, if_neg hnm1, hup, hlo]
      obtain ⟨st2, hfold, h02, h62⟩ :=
        ih (ScanState.mk ((gs.getD i 0 : ℕ) : ℤ)
            (Function.update st.lower ⟨((gs.getD i 0 : ℕ) : ℤ).toNat, by omega⟩ (i : ℤ))
            (Function.update st.upper ⟨st.temp.toNat, by omega⟩ (i : ℤ)))
          (fun j hj => hvals j (List.mem_cons_of_mem _ hj)) (by dsimp only; omega)
          (by dsimp only; omega)
      refine ⟨st2, ?_, h02, h62⟩
      rw [List.foldlM_cons, hstep]
      simpa using hfold

lemma size_applyPermutations (c : segmentTypeCollection) (p : List ℕ) :
    (segmentTypeCollection.applyPermutations c p).size = p.length := by
  simp [segmentTypeCollection.applyPermutations, segmentTypeCollection.size,
    segmentTypeCollection.gather]

lemma gather_getD {α : Type} (d : α) (l : List α) (p : List ℕ) {i : ℕ}
    (hi : i < p.length) :
    (segmentTypeCollection.gather d l p).getD i d = l.getD (p.getD i 0) d := by
  unfold segmentTypeCollection.gather
  rw [List.getD_eq_getElem?_getD, List.getElem?_map, List.getElem?_eq_getElem hi,
    List.getD_eq_getElem _ _ hi]
  rfl

/-- Every group value the scan reads is a group value stored in the original
collection. -/
lemma scanvals_mem (c : segmentTypeCollection) {i : ℕ}
    (hi : i < (segmentTypeCollection.get_permutation_vector c).length) :
    (segmentTypeCollection.applyPermutations c
        (segmentTypeCollection.get_permutation_vector c)).SegmentTypeGroup.getD i 0 ∈
      c.SegmentTypeGroup := by
  have h1 : (segmentTypeCollection.applyPermutations c
      (segmentTypeCollection.get_permutation_vector c)).SegmentTypeGroup.getD i 0 =
      c.SegmentTypeGroup.getD
        ((segmentTypeCollection.get_permutation_vector c).getD i 0) 0 :=
    gather_getD 0 c.SegmentTypeGroup _ hi
  rw [h1]
  have hp : (segmentTypeCollection.get_permutation_vector c).getD i 0 ∈
      segmentTypeCollection.get_permutation_vector c := by
    rw [List.getD_eq_getElem _ _ hi]
    exact List.getElem_mem _
  have hlt := (mem_gpv c).mp hp
  rw [List.getD_eq_getElem _ _ hlt]
  exact List.getElem_mem _

/-- **C9 (counterexample)** On the empty (freshly constructed) collection —
whose group values vacuously all lie in `[0, 6]` — the group-transition scan
never sets `temporaryindex`, so the final write
`upperBoundIndexForGroup[temporaryindex] = size()` indexes the bound array at
`−1`: the bounds-checked `sort` returns `none`, refuting the claim that every
array access of `sort()` is in bounds for the empty collection. -/
theorem C9_counterexample :
    (∀ v ∈ (segmentTypeCollection.mkNew 1).SegmentTypeGroup, v ≤ 6) ∧
    (segmentTypeCollection.mkNew 1).sort = none := by
  constructor
  · intro v hv
    simp [segmentTypeCollection.mkNew] at hv
  · rfl

/-- **C9 (amended)** For every *nonempty* collection whose stored group
values lie in `[0, 6]`, every array index `sort()` reads or writes —
including the final write to `upperBoundIndexForGroup` — is within bounds:
the bounds-checked embedding succeeds. -/
theorem C9_sort_safe_on_nonempty (c : segmentTypeCollection)
    (hne : c.SegmentTypeGroup ≠ [])
    (hg : ∀ v ∈ c.SegmentTypeGroup, v ≤ 6) :
    (segmentTypeCollection.sort c).isSome := by
  have hn : 0 < c.SegmentTypeGroup.length := List.length_pos.mpr hne
  have hsz : (segmentTypeCollection.applyPermutations c
      (segmentTypeCollection.get_permutation_vector c)).size =
      c.SegmentTypeGroup.length := by
    rw [size_applyPermutations, length_gpv]
  have hvals : ∀ i ∈ List.range (segmentTypeCollection.applyPermutations c
      (segmentTypeCollection.get_permutation_vector c)).size,
      (segmentTypeCollection.applyPermutations c
        (segmentTypeCollection.get_permutation_vector c)).SegmentTypeGroup.getD i 0 ≤ 6 := by
    intro i hi
    rw [List.mem_range, hsz, ← length_gpv c] at hi
    exact hg _ (scanvals_mem c hi)
  obtain ⟨m, hm⟩ : ∃ m, (segmentTypeCollection.applyPermutations c
      (segmentTypeCollection.get_permutation_vector c)).size = m + 1 :=
    ⟨c.SegmentTypeGroup.length - 1, by omega⟩
  have hgi0 : (segmentTypeCollection.applyPermutations c
      (segmentTypeCollection.get_permutation_vector c)).SegmentTypeGroup.getD 0 0 ≤ 6 :=
    hvals 0 (by rw [List.mem_range]; omega)
  have hstep0 : scanStep (segmentTypeCollection.applyPermutations c
      (segmentTypeCollection.get_permutation_vector c)).SegmentTypeGroup
      (ScanState.mk (-1) c.lowerBoundIndexForGroup c.upperBoundIndexForGroup) 0 =
      some (ScanState.mk
        (((segmentTypeCollection.applyPermutations c
          (segmentTypeCollection.get_permutation_vector c)).SegmentTypeGroup.getD 0 0 : ℕ) : ℤ)
        (Function.update c.lowerBoundIndexForGroup
          ⟨(segmentTypeCollection.applyPermutations c
            (segmentTypeCollection.get_permutation_vector c)).SegmentTypeGroup.getD 0 0,
            by omega⟩ (0 : ℤ))
        c.upperBoundIndexForGroup) := by
    unfold scanStep
    dsimp only
    rw [if_neg (by omega), if_pos rfl]
    dsimp only
    rw [writeGroupArr_of_inrange _ _ _ (by omega) (by omega)]
    rfl
  obtain ⟨st2, hfold2, h02, h62⟩ := scan_success
    (segmentTypeCollection.applyPermutations c
      (segmentTypeCollection.get_permutation_vector c)).SegmentTypeGroup
    ((List.range m).map Nat.succ)
    (ScanState.mk
        (((segmentTypeCollection.applyPermutations c
          (segmentTypeCollection.get_permutation_vector c)).SegmentTypeGroup.getD 0 0 : ℕ) : ℤ)
        (Function.update c.lowerBoundIndexForGroup
          ⟨(segmentTypeCollection.applyPermutations c
            (segmentTypeCollection.get_permutation_vector c)).SegmentTypeGroup.getD 0 0,
            by omega⟩ (0 : ℤ))
        c.upperBoundIndexForGroup)
    (fun j hj => hvals j (by rw [hm]; rw [List.range_succ_eq_map]; exact List.mem_cons_of_mem _ hj))
    (by dsimp only; omega) (by dsimp only; omega)
  have hfold : (List.range (segmentTypeCollection.applyPermutations c
      (segmentTypeCollection.get_permutation_vector c)).size).foldlM
      (scanStep (segmentTypeCollection.applyPermutations c
        (segmentTypeCollection.get_permutation_vector c)).SegmentTypeGroup)
      (ScanState.mk (-1) c.lowerBoundIndexForGroup c.upperBoundIndexForGroup) =
      some st2 := by
    rw [hm, List.range_succ_eq_map, List.foldlM_cons, hstep0]
    simpa using hfold2
  have hwrite := writeGroupArr_of_inrange st2.upper st2.temp
    ((((segmentTypeCollection.applyPermutations c
      (segmentTypeCollection.get_permutation_vector c)).size : ℕ) : ℤ)) h02 (by omega)
  unfold segmentTypeCollection.sort
  rw [hfold]
  dsimp only
  rw [hwrite]
  rfl

/-- **C6 (counterexample)** On a freshly constructed collection holding a
single segment type of group 0, `sort()` leaves the bounds of the empty
group 1 at their initial value `0`, not at the collection size `1` that the
claim demands ("the starting index of the next nonempty group, or the
collection size when no later group is nonempty" — here there is no later
nonempty group, so the claim demands `1`). -/
theorem C6_counterexample :
    (segmentTypeCollection.sort c6ex).isSome = true ∧
    (exSome (segmentTypeCollection.sort c6ex)).size = 1 ∧
    (exSome (segmentTypeCollection.sort c6ex)).numberOfSegmentsForGroup 1 = 0 ∧
    (exSome (segmentTypeCollection.sort c6ex)).lowerBoundIndexForGroup 1 = 0 ∧
    (exSome (segmentTypeCollection.sort c6ex)).upperBoundIndexForGroup 1 = 0 ∧
    (0 : ℤ) ≠ 1 := by
  refine ⟨?_, ?_, ?_, ?_, ?_, ?_⟩ <;> decide

/-- **C6 (amended)** After `sort()` on a freshly constructed collection
(zero-initialized bound arrays), every group `g` with zero members has
`numberOfSegmentsForGroup[g] = 0` and
`lowerBoundIndexForGroup[g] = upperBoundIndexForGroup[g] = 0` — the scan
never touches the bound entries of absent groups, so they retain their
initial value `0`, which coincides with the starting index of the next
nonempty group only when `g` precedes the first nonempty group. -/
theorem C6_empty_group_bounds (c c2 : segmentTypeCollection) (g : Fin 7)
    (hlo : c.lowerBoundIndexForGroup = fun _ => 0)
    (hup : c.upperBoundIndexForGroup = fun _ => 0)
    (hsort : c.sort = some c2)
    (hg : (g : ℕ) ∉ c.SegmentTypeGroup) :
    c2.numberOfSegmentsForGroup g = 0 ∧ c2.lowerBoundIndexForGroup g = 0 ∧
      c2.upperBoundIndexForGroup g = 0 := by
  unfold segmentTypeCollection.sort at hsort
  cases hscan : (List.range (segmentTypeCollection.applyPermutations c
      (segmentTypeCollection.get_permutation_vector c)).size).foldlM
      (scanStep (segmentTypeCollection.applyPermutations c
        (segmentTypeCollection.get_permutation_vector c)).SegmentTypeGroup)
      (ScanState.mk (-1) c.lowerBoundIndexForGroup c.upperBoundIndexForGroup) with
  | none =>
    rw [hscan] at hsort
    cases hsort
  | some st =>
    rw [hscan] at hsort
    dsimp only at hsort
    cases hwr : writeGroupArr st.upper st.temp
        (((segmentTypeCollection.applyPermutations c
          (segmentTypeCollection.get_permutation_vector c)).size : ℕ) : ℤ) with
    | none =>
      rw [hwr] at hsort
      cases hsort
    | some up =>
      rw [hwr] at hsort
      dsimp only at hsort
      have hc2 := (Option.some.inj hsort).symm
      have hInv : st.lower g = 0 ∧ st.upper g = 0 ∧
          (st.temp = -1 ∨ ∃ v ∈ c.SegmentTypeGroup, st.temp = (v : ℤ)) := by
        refine foldlM_option_inv _
          (fun s => s.lower g = 0 ∧ s.upper g = 0 ∧
            (s.temp = -1 ∨ ∃ v ∈ c.SegmentTypeGroup, s.temp = (v : ℤ)))
          _ ?_ _ _ hscan ?_
        · intro s i hi hInvS s2 hstep
          obtain ⟨hl0, hu0, htmp⟩ := hInvS
          have hiv : (segmentTypeCollection.applyPermutations c
              (segmentTypeCollection.get_permutation_vector c)).SegmentTypeGroup.getD i 0 ∈
              c.SegmentTypeGroup := by
            apply scanvals_mem
            rw [List.mem_range, size_applyPermutations] at hi
            exact hi
          have hvg : (segmentTypeCollection.applyPermutations c
              (segmentTypeCollection.get_permutation_vector c)).SegmentTypeGroup.getD i 0 ≠
              (g : ℕ) := by
            intro heq
            exact hg (heq ▸ hiv)
          unfold scanStep at hstep
          by_cases ht : s.temp = (((segmentTypeCollection.applyPermutations c
              (segmentTypeCollection.get_permutation_vector c)).SegmentTypeGroup.getD i 0 : ℕ) : ℤ)
          · rw [if_pos ht] at hstep
            cases hstep
            exact ⟨hl0, hu0, htmp⟩
          · rw [if_neg ht] at hstep
            cases hu : (if s.temp = -1 then some s.upper
                else writeGroupArr s.upper s.temp (i : ℤ)) with
            | none =>
              rw [hu] at hstep
              cases hstep
            | some u =>
              rw [hu] at hstep
              cases hl : writeGroupArr s.lower
                  (((segmentTypeCollection.applyPermutations c
                    (segmentTypeCollection.get_permutation_vector c)).SegmentTypeGroup.getD i 0 : ℕ) : ℤ)
                  (i : ℤ) with
              | none =>
                rw [hl] at hstep
                cases hstep
              | some lo =>
                rw [hl] at hstep
                cases hstep
                refine ⟨?_, ?_, ?_⟩
                · dsimp only
                  unfold writeGroupArr at hl
                  split_ifs at hl with hc
                  have hlo2 := Option.some.inj hl
                  rw [← hlo2, Function.update_noteq]
                  · exact hl0
                  · intro hfe
                    apply hvg
                    have h2 := congrArg Fin.val hfe
                    dsimp only at h2
                    omega
                · dsimp only
                  by_cases hm1 : s.temp = -1
                  · rw [if_pos hm1] at hu
                    cases hu
                    exact hu0
                  · rw [if_neg hm1] at hu
                    rcases htmp with h | ⟨v, hv, hveq⟩
                    · exact absurd h hm1
                    · unfold writeGroupArr at hu
                      split_ifs at hu with hc
                      have hu2 := Option.some.inj hu
                      rw [← hu2, Function.update_noteq]
                      · exact hu0
                      · intro hfe
                        have h2 := congrArg Fin.val hfe
                        dsimp only at h2
                        have hgv : (g : ℕ) = v := by omega
                        exact hg (hgv ▸ hv)
                · dsimp only
                  exact Or.inr ⟨_, hiv, rfl⟩
        · refine ⟨?_, ?_, Or.inl rfl⟩
          · dsimp only
            rw [hlo]
          · dsimp only
            rw [hup]
      obtain ⟨hst_lo, hst_up, hst_tmp⟩ := hInv
      have hup_g : up g = 0 := by
        have hrange := writeGroupArr_some_inv hwr
        rcases hst_tmp with h | ⟨v, hv, hveq⟩
        · omega
        · unfold writeGroupArr at hwr
          split_ifs at hwr with hc
          have hup2 := Option.some.inj hwr
          rw [← hup2, Function.update_noteq]
          · exact hst_up
          · intro hfe
            have h2 := congrArg Fin.val hfe
            dsimp only at h2
            have hgv : (g : ℕ) = v := by omega
            exact hg (hgv ▸ hv)
      refine ⟨?_, ?_, ?_⟩
      · rw [hc2]
        dsimp only
        rw [hup_g, hst_lo]
        rfl
      · rw [hc2]
        dsimp only
        exact hst_lo
      · rw [hc2]
        dsimp only
        exact hup_g

lemma gather_range_self {α : Type} (d : α) (l : List α) :
    segmentTypeCollection.gather d l (List.range l.length) = l := by
  unfold segmentTypeCollection.gather
  apply List.ext_getElem
  · simp
  · intro i h1 h2
    simp only [List.getElem_map, List.getElem_range]
    rw [List.getD_eq_getElem _ _ h2]

lemma applyPermutations_range (c : segmentTypeCollection) (n : ℕ)
    (hg : c.SegmentTypeGroup.length = n) (hs : c.SegmentTypeSigma.length = n)
    (hsc : c.SegmentTypeSigmaCorr.length = n) (hhb : c.SegmentTypeHBtype.length = n)
    (han : c.SegmentTypeAtomicNumber.length = n) (har : c.SegmentTypeAreas.length = n) :
    segmentTypeCollection.applyPermutations c (List.range n) = c := by
  unfold segmentTypeCollection.applyPermutations
  obtain ⟨t, ar, gr, sg, scc, hbt, ann, lo, up, ct⟩ := c
  dsimp only at hg hs hsc hhb han har ⊢
  simp only [segmentTypeCollection.mk.injEq]
  refine ⟨trivial, ?_, ?_, ?_, ?_, ?_, ?_, trivial, trivial, trivial⟩
  · rw [← har]
    exact gather_range_self _ _
  · rw [← hg]
    exact gather_range_self _ _
  · rw [← hs]
    exact gather_range_self _ _
  · rw [← hsc]
    exact gather_range_self _ _
  · rw [← hhb]
    exact gather_range_self _ _
  · rw [← han]
    exact gather_range_self _ _

lemma rel_transfer {f2 f1 lo2 lo1 : Fin 7 → ℤ} {idx : Fin 7} {v : ℤ}
    (h : ∀ g, f2 g = f1 g ∨
      (f2 g = Function.update lo2 idx v g ∧ f1 g = Function.update lo1 idx v g)) :
    ∀ g, f2 g = f1 g ∨ (f2 g = lo2 g ∧ f1 g = lo1 g) := by
  intro g
  rcases h g with h | ⟨h2, h1⟩
  · exact Or.inl h
  · by_cases hg : g = idx
    · subst hg
      rw [Function.update_same] at h2 h1
      exact Or.inl (h2.trans h1.symm)
    · rw [Function.update_noteq hg] at h2 h1
      exact Or.inr ⟨h2, h1⟩

/-- Two runs of the bounds scan over the same group sequence from the same
`temporaryindex` perform the same control flow and the same writes: the
second run succeeds whenever the first does, finishes with the same
`temporaryindex`, and each bound entry either was written (same value in both
runs) or retains its respective starting value. -/
lemma scan_sim (gs : List ℕ) :
    ∀ (l : List ℕ) (t : ℤ) (lo1 up1 lo2 up2 : Fin 7 → ℤ) (st1 : ScanState),
    l.foldlM (scanStep gs) (ScanState.mk t lo1 up1) = some st1 →
    ∃ st2, l.foldlM (scanStep gs) (ScanState.mk t lo2 up2) = some st2 ∧
      st2.temp = st1.temp ∧
      (∀ g, st2.lower g = st1.lower g ∨ (st2.lower g = lo2 g ∧ st1.lower g = lo1 g)) ∧
      (∀ g, st2.upper g = st1.upper g ∨ (st2.upper g = up2 g ∧ st1.upper g = up1 g)) := by
  intro l
  induction l with
  | nil =>
    intro t lo1 up1 lo2 up2 st1 h
    simp only [List.foldlM_nil] at h
    cases h
    exact ⟨ScanState.mk t lo2 up2, rfl, rfl,
      fun g => Or.inr ⟨rfl, rfl⟩, fun g => Or.inr ⟨rfl, rfl⟩⟩
  | cons i l ih =>
    intro t lo1 up1 lo2 up2 st1 h
    rw [List.foldlM_cons] at h
    by_cases ht : t = ((gs.getD i 0 : ℕ) : ℤ)
    · have hstep1 : scanStep gs (ScanState.mk t lo1 up1) i =
          some (ScanState.mk t lo1 up1) := by
        unfold scanStep
        dsimp only
        rw [if_pos ht]
      have hstep2 : scanStep gs (ScanState.mk t lo2 up2) i =
          some (ScanState.mk t lo2 up2) := by
        unfold scanStep
        dsimp only
        rw [if_pos ht]
      rw [hstep1] at h
      have h2 : l.foldlM (scanStep gs) (ScanState.mk t lo1 up1) = some st1 := by
        simpa using h
      obtain ⟨st2, hfold2, htemp, hlow, hup⟩ := ih t lo1 up1 lo2 up2 st1 h2
      refine ⟨st2, ?_, htemp, hlow, hup⟩
      rw [List.foldlM_cons, hstep2]
      simpa using hfold2
    · cases hs1 : scanStep gs (ScanState.mk t lo1 up1) i with
      | none =>
        rw [hs1] at h
        simp at h
      | some sm =>
        rw [hs1] at h
        have h2 : l.foldlM (scanStep gs) sm = some st1 := by simpa using h
        unfold scanStep at hs1
        dsimp only at hs1
        rw [if_neg ht] at hs1
        by_cases hm1 : t = -1
        · rw [if_pos hm1] at hs1
          cases hl1 : writeGroupArr lo1 ((gs.getD i 0 : ℕ) : ℤ) (i : ℤ) with
          | none =>
            rw [hl1] at hs1
            cases hs1
          | some loA =>
            rw [hl1] at hs1
            have hsm := (Option.some.inj hs1).symm
            have hrange := writeGroupArr_some_inv hl1
            have hloA : loA = Function.update lo1
                ⟨((gs.getD i 0 : ℕ) : ℤ).toNat, by omega⟩ (i : ℤ) := by
              have := hl1
              rw [writeGroupArr_of_inrange _ _ _ hrange.1 hrange.2] at this
              exact (Option.some.inj this).symm
            have hl2 := writeGroupArr_of_inrange lo2 ((gs.getD i 0 : ℕ) : ℤ) (i : ℤ)
              hrange.1 hrange.2
            have hstep2 : scanStep gs (ScanState.mk t lo2 up2) i =
                some (ScanState.mk ((gs.getD i 0 : ℕ) : ℤ)
                  (Function.update lo2 ⟨((gs.getD i 0 : ℕ) : ℤ).toNat, by omega⟩ (i : ℤ))
                  up2) := by
              unfold scanStep
              dsimp only
              rw [if_neg ht, if_pos hm1, hl2]
            rw [hsm, hloA] at h2
            obtain ⟨st2, hfold2, htemp, hlow, hup⟩ := ih _ _ _
              (Function.update lo2 ⟨((gs.getD i 0 : ℕ) : ℤ).toNat, by omega⟩ (i : ℤ)) up2 st1 h2
            refine ⟨st2, ?_, htemp, rel_transfer hlow, hup⟩
            rw [List.foldlM_cons, hstep2]
            simpa using hfold2
        · rw [if_neg hm1] at hs1
          cases hu1 : writeGroupArr up1 t (i : ℤ) with
          | none =>
            rw [hu1] at hs1
            cases hs1
          | some upA =>
            rw [hu1] at hs1
            cases hl1 : writeGroupArr lo1 ((gs.getD i 0 : ℕ) : ℤ) (i : ℤ) with
            | none =>
              rw [hl1] at hs1
              cases hs1
            | some loA =>
              rw [hl1] at hs1
              have hsm := (Option.some.inj hs1).symm
              have hrangeU := writeGroupArr_some_inv hu1
              have hrangeL := writeGroupArr_some_inv hl1
              have hupA : upA = Function.update up1 ⟨t.toNat, by omega⟩ (i : ℤ) := by
                have := hu1
                rw [writeGroupArr_of_inrange _ _ _ hrangeU.1 hrangeU.2] at this
                exact (Option.some.inj this).symm
              have hloA : loA = Function.update lo1
                  ⟨((gs.getD i 0 : ℕ) : ℤ).toNat, by omega⟩ (i : ℤ) := by
                have := hl1
                rw [writeGroupArr_of_inrange _ _ _ hrangeL.1 hrangeL.2] at this
                exact (Option.some.inj this).symm
              have hstep2 : scanStep gs (ScanState.mk t lo2 up2) i =
                  some (ScanState.mk ((gs.getD i 0 : ℕ) : ℤ)
                    (Function.update lo2 ⟨((gs.getD i 0 : ℕ) : ℤ).toNat, by omega⟩ (i : ℤ))
                    (Function.update up2 ⟨t.toNat, by omega⟩ (i : ℤ))) := by
                unfold scanStep
                dsimp only
                rw [if_neg ht, if_neg hm1,
                  writeGroupArr_of_inrange _ _ _ hrangeU.1 hrangeU.2,
                  writeGroupArr_of_inrange _ _ _ hrangeL.1 hrangeL.2]
              rw [hsm, hloA, hupA] at h2
              obtain ⟨st2, hfold2, htemp, hlow, hup⟩ := ih _ _ _
                (Function.update lo2 ⟨((gs.getD i 0 : ℕ) : ℤ).toNat, by omega⟩ (i : ℤ))
                (Function.update up2 ⟨t.toNat, by omega⟩ (i : ℤ)) st1 h2
              refine ⟨st2, ?_, htemp, rel_transfer hlow, rel_transfer hup⟩
              rw [List.foldlM_cons, hstep2]
              simpa using hfold2

lemma collection_update_bounds_eq (c : segmentTypeCollection) (A B C : Fin 7 → ℤ)
    (hA : A = c.lowerBoundIndexForGroup) (hB : B = c.upperBoundIndexForGroup)
    (hC : C = c.numberOfSegmentsForGroup) :
    { c with
      lowerBoundIndexForGroup := A
      upperBoundIndexForGroup := B
      numberOfSegmentsForGroup := C } = c := by
  subst hA
  subst hB
  subst hC
  rfl

/-- **C7** `sort()` is stable and idempotent: segment types of one group with
identical `(sigma, sigmaCorr, hbType, atomicNumber)` keep their original
relative order in the sort permutation (the comparator tie-breaks on the
original index), and sorting the already-sorted collection changes nothing:
every attribute array and all three group bound/count arrays are unchanged. -/
theorem C7_sort_stable_idempotent (c c2 : segmentTypeCollection)
    (hsort : c.sort = some c2) :
    (∀ i j : ℕ, i < j → j < c.SegmentTypeGroup.length →
      c.grOf i = c.grOf j → c.sgOf i = c.sgOf j → c.scOf i = c.scOf j →
      c.hbOf i = c.hbOf j → c.anOf i = c.anOf j →
      (segmentTypeCollection.get_permutation_vector c).indexOf i <
        (segmentTypeCollection.get_permutation_vector c).indexOf j)
    ∧ c2.sort = some c2 := by
  constructor
  · -- stability
    intro i j hij hjn h1 h2 h3 h4 h5
    have hcmp : segmentTypeCollection.cmpLt c i j := by
      unfold segmentTypeCollection.cmpLt
      rw [if_neg (by simp [h1]), if_neg (by simp [h5]), if_neg (by simp [h2]),
        if_neg (by simp [h3]), if_neg (by simp [h4]), if_neg (by simp [h5])]
      exact hij
    have hin : i ∈ segmentTypeCollection.get_permutation_vector c :=
      (mem_gpv c).mpr (by omega)
    have hjn2 : j ∈ segmentTypeCollection.get_permutation_vector c :=
      (mem_gpv c).mpr hjn
    have hilt : (segmentTypeCollection.get_permutation_vector c).indexOf i <
        (segmentTypeCollection.get_permutation_vector c).length :=
      List.indexOf_lt_length.mpr hin
    have hjlt : (segmentTypeCollection.get_permutation_vector c).indexOf j <
        (segmentTypeCollection.get_permutation_vector c).length :=
      List.indexOf_lt_length.mpr hjn2
    have hgi : (segmentTypeCollection.get_permutation_vector c)[
        (segmentTypeCollection.get_permutation_vector c).indexOf i] = i :=
      List.getElem_indexOf hilt
    have hgj : (segmentTypeCollection.get_permutation_vector c)[
        (segmentTypeCollection.get_permutation_vector c).indexOf j] = j :=
      List.getElem_indexOf hjlt
    by_contra hcon
    push_neg at hcon
    rcases Nat.lt_or_ge ((segmentTypeCollection.get_permutation_vector c).indexOf j)
        ((segmentTypeCollection.get_permutation_vector c).indexOf i) with hlt | hge
    · have hpair := List.pairwise_iff_getElem.mp (sorted_gpv c) _ _ hjlt hilt hlt
      rw [hgi, hgj] at hpair
      exact hpair hcmp
    · have heq : i = j := (List.indexOf_inj hin hjn2).mp (by omega)
      omega
  · -- idempotence
    unfold segmentTypeCollection.sort at hsort
    cases hscan : (List.range (segmentTypeCollection.applyPermutations c
        (segmentTypeCollection.get_permutation_vector c)).size).foldlM
        (scanStep (segmentTypeCollection.applyPermutations c
          (segmentTypeCollection.get_permutation_vector c)).SegmentTypeGroup)
        (ScanState.mk (-1) c.lowerBoundIndexForGroup c.upperBoundIndexForGroup) with
    | none =>
      rw [hscan] at hsort
      cases hsort
    | some st =>
      rw [hscan] at hsort
      dsimp only at hsort
      cases hwr : writeGroupArr st.upper st.temp
          (((segmentTypeCollection.applyPermutations c
            (segmentTypeCollection.get_permutation_vector c)).size : ℕ) : ℤ) with
      | none =>
        rw [hwr] at hsort
        cases hsort
      | some up =>
        rw [hwr] at hsort
        dsimp only at hsort
        have hc2 := (Option.some.inj hsort).symm
        have hlenp : (segmentTypeCollection.get_permutation_vector c).length =
            c.SegmentTypeGroup.length := length_gpv c
        have hszc1 : (segmentTypeCollection.applyPermutations c
            (segmentTypeCollection.get_permutation_vector c)).size =
            c.SegmentTypeGroup.length := by
          rw [size_applyPermutations, length_gpv]
        -- the six arrays of c2 and their lengths
        have hgrp2 : c2.SegmentTypeGroup = segmentTypeCollection.gather 0
            c.SegmentTypeGroup (segmentTypeCollection.get_permutation_vector c) := by
          rw [hc2]
          rfl
        have hsg2 : c2.SegmentTypeSigma = segmentTypeCollection.gather 0
            c.SegmentTypeSigma (segmentTypeCollection.get_permutation_vector c) := by
          rw [hc2]
          rfl
        have hsc2 : c2.SegmentTypeSigmaCorr = segmentTypeCollection.gather 0
            c.SegmentTypeSigmaCorr (segmentTypeCollection.get_permutation_vector c) := by
          rw [hc2]
          rfl
        have hhb2 : c2.SegmentTypeHBtype = segmentTypeCollection.gather 0
            c.SegmentTypeHBtype (segmentTypeCollection.get_permutation_vector c) := by
          rw [hc2]
          rfl
        have han2 : c2.SegmentTypeAtomicNumber = segmentTypeCollection.gather 0
            c.SegmentTypeAtomicNumber (segmentTypeCollection.get_permutation_vector c) := by
          rw [hc2]
          rfl
        have har2 : c2.SegmentTypeAreas = segmentTypeCollection.gather []
            c.SegmentTypeAreas (segmentTypeCollection.get_permutation_vector c) := by
          rw [hc2]
          rfl
        have hglen : c2.SegmentTypeGroup.length = c.SegmentTypeGroup.length := by
          rw [hgrp2]
          simp [segmentTypeCollection.gather, length_gpv]
        have hslen : c2.SegmentTypeSigma.length = c.SegmentTypeGroup.length := by
          rw [hsg2]
          simp [segmentTypeCollection.gather, length_gpv]
        have hsclen : c2.SegmentTypeSigmaCorr.length = c.SegmentTypeGroup.length := by
          rw [hsc2]
          simp [segmentTypeCollection.gather, length_gpv]
        have hhblen : c2.SegmentTypeHBtype.length = c.SegmentTypeGroup.length := by
          rw [hhb2]
          simp [segmentTypeCollection.gather, length_gpv]
        have hanlen : c2.SegmentTypeAtomicNumber.length = c.SegmentTypeGroup.length := by
          rw [han2]
          simp [segmentTypeCollection.gather, length_gpv]
        have harlen : c2.SegmentTypeAreas.length = c.SegmentTypeGroup.length := by
          rw [har2]
          simp [segmentTypeCollection.gather, length_gpv]
        -- attribute values of c2 are the gathered originals
        have hval2 : ∀ x, x < c.SegmentTypeGroup.length →
            valKey c2 x = valKey c
              ((segmentTypeCollection.get_permutation_vector c).getD x 0) := by
          intro x hx
          have hxp : x < (segmentTypeCollection.get_permutation_vector c).length := by
            omega
          have e1 : c2.grOf x = c.grOf
              ((segmentTypeCollection.get_permutation_vector c).getD x 0) := by
            unfold segmentTypeCollection.grOf
            rw [hgrp2]
            exact gather_getD 0 _ _ hxp
          have e2 : c2.sgOf x = c.sgOf
              ((segmentTypeCollection.get_permutation_vector c).getD x 0) := by
            unfold segmentTypeCollection.sgOf
            rw [hsg2]
            exact gather_getD 0 _ _ hxp
          have e3 : c2.scOf x = c.scOf
              ((segmentTypeCollection.get_permutation_vector c).getD x 0) := by
            unfold segmentTypeCollection.scOf
            rw [hsc2]
            exact gather_getD 0 _ _ hxp
          have e4 : c2.hbOf x = c.hbOf
              ((segmentTypeCollection.get_permutation_vector c).getD x 0) := by
            unfold segmentTypeCollection.hbOf
            rw [hhb2]
            exact gather_getD 0 _ _ hxp
          have e5 : c2.anOf x = c.anOf
              ((segmentTypeCollection.get_permutation_vector c).getD x 0) := by
            unfold segmentTypeCollection.anOf
            rw [han2]
            exact gather_getD 0 _ _ hxp
          unfold valKey monoKey
          rw [e1, e2, e3, e4, e5]
        -- the sorted collection is key-sorted
        have hsorted2 : ∀ a b : ℕ, a < b → b < c.SegmentTypeGroup.length →
            ¬ segmentTypeCollection.cmpLt c2 b a := by
          intro a b hab hbn hcmp
          rw [cmpLt_iff_sortKey, sortKey_lt_iff] at hcmp
          rcases hcmp with hlt | ⟨_, hba⟩
          · rw [hval2 b hbn, hval2 a (by omega)] at hlt
            have hpair := List.pairwise_iff_getElem.mp (sorted_gpv c) a b
              (by omega) (by omega) hab
            rw [cmpLt_iff_sortKey] at hpair
            apply hpair
            rw [sortKey_lt_iff]
            left
            rw [List.getD_eq_getElem _ _ (by omega : b <
              (segmentTypeCollection.get_permutation_vector c).length),
              List.getD_eq_getElem _ _ (by omega : a <
              (segmentTypeCollection.get_permutation_vector c).length)] at hlt
            exact hlt
          · omega
        -- the second permutation vector is the identity
        have hp2 : segmentTypeCollection.get_permutation_vector c2 =
            List.range c.SegmentTypeGroup.length := by
          unfold segmentTypeCollection.get_permutation_vector
          rw [hglen]
          haveI hAnti : IsAntisymm ℕ (fun i j => ¬ segmentTypeCollection.cmpLt c2 j i) :=
            ⟨leCmp_antisymm c2⟩
          haveI hTot : IsTotal ℕ (fun i j => ¬ segmentTypeCollection.cmpLt c2 j i) :=
            ⟨leCmp_total c2⟩
          haveI hTrans : IsTrans ℕ (fun i j => ¬ segmentTypeCollection.cmpLt c2 j i) :=
            ⟨leCmp_trans c2⟩
          have hs1 : List.Sorted (fun i j => ¬ segmentTypeCollection.cmpLt c2 j i)
              (List.insertionSort (fun i j => ¬ segmentTypeCollection.cmpLt c2 j i)
                (List.range c.SegmentTypeGroup.length)) :=
            List.sorted_insertionSort _ _
          have hs2 : List.Sorted (fun i j => ¬ segmentTypeCollection.cmpLt c2 j i)
              (List.range c.SegmentTypeGroup.length) := by
            rw [List.Sorted, List.pairwise_iff_getElem]
            intro a b ha hb hab
            simp only [List.getElem_range]
            simp only [List.length_range] at ha hb
            exact hsorted2 a b hab hb
          exact List.eq_of_perm_of_sorted (List.perm_insertionSort _ _) hs1 hs2
        have happ2 : segmentTypeCollection.applyPermutations c2
            (List.range c.SegmentTypeGroup.length) = c2 :=
          applyPermutations_range c2 _ hglen hslen hsclen hhblen hanlen harlen
        have hsz2 : c2.size = c.SegmentTypeGroup.length := hhblen
        have hgs2 : c2.SegmentTypeGroup = (segmentTypeCollection.applyPermutations c
            (segmentTypeCollection.get_permutation_vector c)).SegmentTypeGroup := by
          rw [hc2]
        have hlow2 : c2.lowerBoundIndexForGroup = st.lower := by rw [hc2]
        have hupp2 : c2.upperBoundIndexForGroup = up := by rw [hc2]
        -- rerun the scan from the written bounds
        rw [hszc1] at hscan
        obtain ⟨st2, hfold2, htemp2, hlowrel, huprel⟩ :=
          scan_sim ((segmentTypeCollection.applyPermutations c
              (segmentTypeCollection.get_permutation_vector c)).SegmentTypeGroup)
            (List.range c.SegmentTypeGroup.length) (-1)
            c.lowerBoundIndexForGroup c.upperBoundIndexForGroup
            st.lower up st hscan
        have hlow_eq : ∀ g, st2.lower g = st.lower g := by
          intro g
          rcases hlowrel g with h | ⟨h, _⟩
          · exact h
          · exact h
        have hrange := writeGroupArr_some_inv hwr
        have hup_eq : up = Function.update st.upper ⟨st.temp.toNat, by omega⟩
            (((segmentTypeCollection.applyPermutations c
              (segmentTypeCollection.get_permutation_vector c)).size : ℕ) : ℤ) := by
          have := hwr
          rw [writeGroupArr_of_inrange _ _ _ hrange.1 hrange.2] at this
          exact (Option.some.inj this).symm
        have hwr2 : writeGroupArr st2.upper st2.temp
            ((c.SegmentTypeGroup.length : ℕ) : ℤ) =
            some (Function.update st2.upper ⟨st2.temp.toNat, by rw [htemp2]; omega⟩
              ((c.SegmentTypeGroup.length : ℕ) : ℤ)) :=
          writeGroupArr_of_inrange _ _ _ (by rw [htemp2]; omega) (by rw [htemp2]; omega)
        have hup2_eq : Function.update st2.upper ⟨st2.temp.toNat, by rw [htemp2]; omega⟩
            ((c.SegmentTypeGroup.length : ℕ) : ℤ) = up := by
          funext g
          by_cases hgidx : g = (⟨st2.temp.toNat, by rw [htemp2]; omega⟩ : Fin 7)
          · subst hgidx
            rw [Function.update_same, hup_eq]
            have hsame : (⟨st2.temp.toNat, by rw [htemp2]; omega⟩ : Fin 7) =
                (⟨st.temp.toNat, by omega⟩ : Fin 7) := by
              simp only [Fin.mk.injEq]
              rw [htemp2]
            rw [hsame, Function.update_same, hszc1]
          · rw [Function.update_noteq hgidx]
            have hgidx2 : g ≠ (⟨st.temp.toNat, by omega⟩ : Fin 7) := by
              intro hg2
              apply hgidx
              rw [hg2]
              simp only [Fin.mk.injEq]
              rw [htemp2]
            rcases huprel g with h | ⟨h, _⟩
            · rw [h, hup_eq, Function.update_noteq hgidx2]
            · exact h
        -- assemble
        unfold segmentTypeCollection.sort
        rw [hp2, happ2, hsz2, hgs2, hlow2, hupp2, hfold2]
        dsimp only
        rw [hwr2]
        dsimp only
        rw [Option.some_inj]
        apply collection_update_bounds_eq
        · funext g
          rw [hlow_eq g, hlow2]
        · rw [hup2_eq, hupp2]
        · funext g
          rw [hc2]
          dsimp only
          rw [hlow_eq g]
          have : Function.update st2.upper ⟨st2.temp.toNat, by rw [htemp2]; omega⟩
              ((c.SegmentTypeGroup.length : ℕ) : ℤ) g = up g := by
            rw [hup2_eq]
          rw [this]


/-- Witness: the `C2_misfit_term` hypotheses hold at `wseg`, `wparam0`,
`T = 298`, pair `(0, 1)`, and the stated misfit forms follow. -/
theorem C2_misfit_term_witness :
    neutralPass wseg wA0 wparam0 298 =
      Except.ok (exOk (neutralPass wseg wA0 wparam0 298))
    ∧ wseg.lowerBoundIndexForGroup 0 ≤ 0 ∧ (0 : ℤ) ≤ 1
    ∧ 1 < upperBoundNeutral wseg
    ∧ ¬ hbBranchFires wparam0.SigmaHB (sigAt wseg 0) (sigAt wseg 1)
        (hbAt wseg 0) (hbAt wseg 1)
    ∧ ((wparam0.sw_misfit = 0 →
        exOk (neutralPass wseg wA0 wparam0 298) 1 0 =
          0.5 * wparam0.Aeff * wparam0.alpha * 5950000 *
            (sigAt wseg 0 + sigAt wseg 1) ^ 2)
      ∧ ((wparam0.sw_misfit = 1 ∨ wparam0.sw_misfit = 2) →
        exOk (neutralPass wseg wA0 wparam0 298) 1 0 =
          0.5 * wparam0.Aeff * wparam0.alpha * 5950000 *
              (sigAt wseg 0 + sigAt wseg 1) ^ 2
            + 0.5 * wparam0.Aeff * wparam0.alpha * 5950000 *
              (sigAt wseg 0 + sigAt wseg 1) * wparam0.fCorr *
              ((sigCorrAt wseg 0 - 0.816 * sigAt wseg 0) +
                (sigCorrAt wseg 1 - 0.816 * sigAt wseg 1)))
      ∧ (∀ r c : ℤ,
          ¬(wseg.lowerBoundIndexForGroup 0 ≤ c ∧ c ≤ r ∧ r < upperBoundNeutral wseg) →
          exOk (neutralPass wseg wA0 wparam0 298) r c = wA0 r c)) := by
  have hok : neutralPass wseg wA0 wparam0 298 =
      Except.ok (exOk (neutralPass wseg wA0 wparam0 298)) :=
    exOk_spec _ (by decide)
  have hi : wseg.lowerBoundIndexForGroup 0 ≤ 0 := by decide
  have hij : (0 : ℤ) ≤ 1 := by decide
  have hj : (1 : ℤ) < upperBoundNeutral wseg := by decide
  have hnf : ¬ hbBranchFires wparam0.SigmaHB (sigAt wseg 0) (sigAt wseg 1)
      (hbAt wseg 0) (hbAt wseg 1) := by
    unfold hbBranchFires
    decide
  exact ⟨hok, hi, hij, hj, hnf,
    C2_misfit_term wseg wA0 _ wparam0 298 0 1 hok hi hij hj hnf⟩

/-- Witness: the `C3_hydrogen_bond_term` conclusions at the integer-valued
parameters `wparam3`, `T = 1` and a donor/acceptor pair. -/
theorem C3_hydrogen_bond_term_witness :
    0 ≤ wparam3.SigmaHB
    ∧ ((CHB_T_of wparam3 1 =
        wparam3.CHB * 36700000 * max 0 (1 - wparam3.CHBT + wparam3.CHBT * (298.15 / 1)))
      ∧ ((-2 : ℚ) < -wparam3.SigmaHB ∧ (2 : ℚ) > wparam3.SigmaHB →
          ((1 : ℕ) = 1 ∧ (2 : ℕ) = 2 →
            pairVal wparam3 1 (-2) 0 2 0 1 2 =
              Except.ok (misfitVal wparam3 (-2) 0 2 0 +
                wparam3.Aeff * CHB_T_of wparam3 1 *
                  (2 - wparam3.SigmaHB) * (-2 + wparam3.SigmaHB)))
          ∧ (¬((1 : ℕ) = 1 ∧ (2 : ℕ) = 2) → ¬((1 : ℕ) = 2 ∧ (2 : ℕ) = 1) →
            pairVal wparam3 1 (-2) 0 2 0 1 2 =
              Except.ok (misfitVal wparam3 (-2) 0 2 0)))
      ∧ ((2 : ℚ) < -wparam3.SigmaHB ∧ (-2 : ℚ) > wparam3.SigmaHB →
          ((1 : ℕ) = 2 ∧ (2 : ℕ) = 1 →
            pairVal wparam3 1 (-2) 0 2 0 1 2 =
              Except.ok (misfitVal wparam3 (-2) 0 2 0 +
                wparam3.Aeff * CHB_T_of wparam3 1 *
                  (-2 - wparam3.SigmaHB) * (2 + wparam3.SigmaHB)))
          ∧ (¬((1 : ℕ) = 1 ∧ (2 : ℕ) = 2) → ¬((1 : ℕ) = 2 ∧ (2 : ℕ) = 1) →
            pairVal wparam3 1 (-2) 0 2 0 1 2 =
              Except.ok (misfitVal wparam3 (-2) 0 2 0)))) := by
  have hHB : 0 ≤ wparam3.SigmaHB := by decide
  exact ⟨hHB, C3_hydrogen_bond_term wparam3 1 (-2) 0 2 0 1 2 hHB⟩

/-- Witness: `C4_invariant_violation` instantiated at `wseg`, `wparam3`,
pair `(0, 1)`. -/
theorem C4_invariant_violation_witness :
    0 ≤ wparam3.SigmaHB
    ∧ (((∃ e, pairValAt wseg wparam3 298 0 1 = Except.error e) ↔
        ((sigAt wseg 0 < -wparam3.SigmaHB ∧ sigAt wseg 1 > wparam3.SigmaHB ∧
            hbAt wseg 0 = 2 ∧ hbAt wseg 1 = 1) ∨
          (sigAt wseg 1 < -wparam3.SigmaHB ∧ sigAt wseg 0 > wparam3.SigmaHB ∧
            hbAt wseg 0 = 1 ∧ hbAt wseg 1 = 2)))
      ∧ (((sigAt wseg 0 < -wparam3.SigmaHB ∧ sigAt wseg 1 > wparam3.SigmaHB ∧
            hbAt wseg 0 = 2 ∧ hbAt wseg 1 = 1) ∨
          (sigAt wseg 1 < -wparam3.SigmaHB ∧ sigAt wseg 0 > wparam3.SigmaHB ∧
            hbAt wseg 0 = 1 ∧ hbAt wseg 1 = 2)) →
        wseg.lowerBoundIndexForGroup 0 ≤ 0 → (0 : ℤ) ≤ 1 → 1 < upperBoundNeutral wseg →
        ∃ e2, calculateInteractionMatrix wseg wA0 [] wparam3 298 = Except.error e2)) := by
  have hHB : 0 ≤ wparam3.SigmaHB := by decide
  exact ⟨hHB, C4_invariant_violation wseg wA0 [] wparam3 298 0 1 hHB⟩

/-- Witness: `C1_reference_state_renormalization` at `wseg`, `wparam1`
(reference-state switch on), with the output matrices extracted from the
successful run. -/
theorem C1_reference_state_renormalization_witness :
    wparam1.sw_useSegmentReferenceStateForInteractionMatrix = 1
    ∧ neutralPass wseg wA0 wparam1 298 =
        Except.ok (exOk (neutralPass wseg wA0 wparam1 298))
    ∧ calculateInteractionMatrix wseg wA0 [] wparam1 298 =
        Except.ok ((exOk (calculateInteractionMatrix wseg wA0 [] wparam1 298)).1,
          (exOk (calculateInteractionMatrix wseg wA0 [] wparam1 298)).2)
    ∧ ((∀ i j : ℤ, 0 ≤ i → i < j → j < (wseg.size : ℤ) →
        (exOk (calculateInteractionMatrix wseg wA0 [] wparam1 298)).1 j i =
          exOk (neutralPass wseg wA0 wparam1 298) j i -
            0.5 * (exOk (neutralPass wseg wA0 wparam1 298) i i +
              exOk (neutralPass wseg wA0 wparam1 298) j j))
      ∧ (∀ i : ℤ, 0 ≤ i → i < (wseg.size : ℤ) →
          (exOk (calculateInteractionMatrix wseg wA0 [] wparam1 298)).1 i i = 0)
      ∧ (0 < wparam1.sw_calculateContactStatisticsAndAdditionalProperties →
         ∀ h : ℕ, h < wparam1.numberOfPartialInteractionMatrices →
            h < ([] : List Mat).length →
          (∀ i j : ℤ, 0 ≤ i → i < j → j < (wseg.size : ℤ) →
            ((exOk (calculateInteractionMatrix wseg wA0 [] wparam1 298)).2.getD h default) j i =
              (([] : List Mat).getD h default) j i
                - 0.5 * ((([] : List Mat).getD h default) i i +
                  (([] : List Mat).getD h default) j j))
          ∧ (∀ i : ℤ, 0 ≤ i → i < (wseg.size : ℤ) →
              ((exOk (calculateInteractionMatrix wseg wA0 [] wparam1 298)).2.getD h default) i i = 0))) := by
  have hsw : wparam1.sw_useSegmentReferenceStateForInteractionMatrix = 1 := by decide
  have hn : neutralPass wseg wA0 wparam1 298 =
      Except.ok (exOk (neutralPass wseg wA0 wparam1 298)) :=
    exOk_spec _ (by decide)
  have hc : calculateInteractionMatrix wseg wA0 [] wparam1 298 =
      Except.ok ((exOk (calculateInteractionMatrix wseg wA0 [] wparam1 298)).1,
        (exOk (calculateInteractionMatrix wseg wA0 [] wparam1 298)).2) :=
    exOk_spec _ (by decide)
  exact ⟨hsw, hn, hc,
    C1_reference_state_renormalization wseg wA0 [] wparam1 298 _ _ _ hsw hn hc⟩

/-- Witness: `C5_hb_term_attractive` at `c5param` and `T = 1`. -/
theorem C5_hb_term_attractive_witness :
    c5param.SigmaHB = 0.0084 ∧ (1 : ℕ) = 1 ∧ (2 : ℕ) = 2
    ∧ 0 < c5param.Aeff ∧ 0 < c5param.CHB ∧ 0 < CHB_T_of c5param 1
    ∧ (pairVal c5param 1 (-0.02) 0 0.02 0 1 2 =
        Except.ok (misfitVal c5param (-0.02) 0 0.02 0 +
          c5param.Aeff * CHB_T_of c5param 1 *
            (0.02 - c5param.SigmaHB) * (-0.02 + c5param.SigmaHB))
      ∧ c5param.Aeff * CHB_T_of c5param 1 *
          (0.02 - c5param.SigmaHB) * (-0.02 + c5param.SigmaHB) < 0) := by
  have h1 : c5param.SigmaHB = 0.0084 := rfl
  have h4 : 0 < c5param.Aeff := by norm_num [c5param]
  have h5 : 0 < c5param.CHB := by norm_num [c5param]
  have h6 : 0 < CHB_T_of c5param 1 := by norm_num [CHB_T_of, c5param]
  exact ⟨h1, rfl, rfl, h4, h5, h6,
    C5_hb_term_attractive c5param 1 0 0 1 2 h1 rfl rfl h4 h5 h6⟩

/-- Witness: `C6_empty_group_bounds` at the fresh one-segment collection
`c6ex` and the empty group `1`. -/
theorem C6_empty_group_bounds_witness :
    c6ex.lowerBoundIndexForGroup = (fun _ => 0)
    ∧ c6ex.upperBoundIndexForGroup = (fun _ => 0)
    ∧ c6ex.sort = some (exSome c6ex.sort)
    ∧ ((1 : Fin 7) : ℕ) ∉ c6ex.SegmentTypeGroup
    ∧ ((exSome c6ex.sort).numberOfSegmentsForGroup 1 = 0
      ∧ (exSome c6ex.sort).lowerBoundIndexForGroup 1 = 0
      ∧ (exSome c6ex.sort).upperBoundIndexForGroup 1 = 0) := by
  have hlo : c6ex.lowerBoundIndexForGroup = (fun _ => 0) := rfl
  have hup : c6ex.upperBoundIndexForGroup = (fun _ => 0) := rfl
  have hsort : c6ex.sort = some (exSome c6ex.sort) := exSome_spec _ (by decide)
  have hg : ((1 : Fin 7) : ℕ) ∉ c6ex.SegmentTypeGroup := by decide
  exact ⟨hlo, hup, hsort, hg, C6_empty_group_bounds c6ex _ 1 hlo hup hsort hg⟩

/-- Witness: `C7_sort_stable_idempotent` at the one-segment collection
`c6ex`. -/
theorem C7_sort_stable_idempotent_witness :
    c6ex.sort = some (exSome c6ex.sort)
    ∧ ((∀ i j : ℕ, i < j → j < c6ex.SegmentTypeGroup.length →
        c6ex.grOf i = c6ex.grOf j → c6ex.sgOf i = c6ex.sgOf j →
        c6ex.scOf i = c6ex.scOf j → c6ex.hbOf i = c6ex.hbOf j →
        c6ex.anOf i = c6ex.anOf j →
        (segmentTypeCollection.get_permutation_vector c6ex).indexOf i <
          (segmentTypeCollection.get_permutation_vector c6ex).indexOf j)
      ∧ (exSome c6ex.sort).sort = some (exSome c6ex.sort)) := by
  have hsort : c6ex.sort = some (exSome c6ex.sort) := exSome_spec _ (by decide)
  exact ⟨hsort, C7_sort_stable_idempotent c6ex _ hsort⟩

/-- Witness: `C8_dedup_and_area_accumulation` on a fresh one-molecule
collection, adding the all-zero key with areas `1` then `2`. -/
theorem C8_dedup_and_area_accumulation_witness :
    w8c.SegmentTypeAreasRowTemplate = List.replicate 1 0
    ∧ w8c.sizesOk
    ∧ segmentTypeCollection.keyCount w8c 0 0 0 0 0 = 0
    ∧ 0 < 1 ∧ (1 : ℚ) ≠ 0 ∧ (2 : ℚ) ≠ 0
    ∧ w8c.add 0 0 0 0 0 0 1 = some w8c1
    ∧ w8c1.add 0 0 0 0 0 0 2 = some w8c2
    ∧ (w8c1.size = w8c.size + 1 ∧ w8c2.size = w8c1.size ∧
      segmentTypeCollection.keyCount w8c2 0 0 0 0 0 = 1 ∧
      w8c2.SegmentTypeAreas.getD w8c.size [] = (List.replicate 1 0).set 0 (1 + 2)) := by
  have hT : w8c.SegmentTypeAreasRowTemplate = List.replicate 1 0 := rfl
  have hS : w8c.sizesOk := ⟨rfl, rfl, rfl, rfl, rfl⟩
  have hK : segmentTypeCollection.keyCount w8c 0 0 0 0 0 = 0 := rfl
  have hm : 0 < 1 := by decide
  have ha1 : (1 : ℚ) ≠ 0 := by decide
  have ha2 : (2 : ℚ) ≠ 0 := by decide
  have h1 : w8c.add 0 0 0 0 0 0 1 = some w8c1 := exSome_spec _ (by decide)
  have h2 : w8c1.add 0 0 0 0 0 0 2 = some w8c2 := exSome_spec _ (by decide)
  exact ⟨hT, hS, hK, hm, ha1, ha2, h1, h2,
    C8_dedup_and_area_accumulation w8c w8c1 w8c2 0 0 0 0 0 0 1 2 1
      hT hS hK hm ha1 ha2 h1 h2⟩

/-- Witness: `C9_sort_safe_on_nonempty` at the nonempty collection `c6ex`. -/
theorem C9_sort_safe_on_nonempty_witness :
    c6ex.SegmentTypeGroup ≠ []
    ∧ (∀ v ∈ c6ex.SegmentTypeGroup, v ≤ 6)
    ∧ (segmentTypeCollection.sort c6ex).isSome = true := by
  have h1 : c6ex.SegmentTypeGroup ≠ [] := by decide
  have h2 : ∀ v ∈ c6ex.SegmentTypeGroup, v ≤ 6 := by decide
  exact ⟨h1, h2, C9_sort_safe_on_nonempty c6ex h1 h2⟩

/-- Witness: `C10_default_ctor_out_of_bounds` with area `1` and one
molecule. -/
theorem C10_default_ctor_out_of_bounds_witness :
    (1 : ℚ) ≠ 0
    ∧ (segmentTypeCollection.mkDefault.add 0 0 0 0 0 0 1 = none
      ∧ (((segmentTypeCollection.mkNew 1).add 0 0 0 0 0 0 1).isSome ↔ 0 < 1)) := by
  have h : (1 : ℚ) ≠ 0 := by decide
  exact ⟨h, C10_default_ctor_out_of_bounds 0 0 0 0 0 0 1 1 h⟩

end OpenCosmoRS
